import Mathlib

/-!
# trpo_back: content-addressed file storage, content-type check and transaction boundary

A shallow embedding of `internal/common/file/file.go` (`CreateFile`, `FileHash`),
`internal/common/file/file_validation.go` (`CheckMimeType`) and
`internal/common/db/sql.go` (`CheckTransaction`), together with models of the
Go standard-library pieces these functions call (error wrapping by `fmt.Errorf`,
`crypto/sha256`, `encoding/hex`, `io.Copy`, `path/filepath.Join`,
`net/http.DetectContentType`, and a small file system).

Bytes are natural numbers below 256; 32-bit words are natural numbers reduced
modulo `2 ^ 32`.
-/

set_option autoImplicit false

namespace TrpoBack

/-! ## Go error values -/

/-- Go error values, as far as the code under study builds and inspects them:
`plain` is an error without a wrapped cause (`errors.New`, a driver or OS error),
`wrapError` is the `*fmt.wrapError` that `fmt.Errorf` returns for one `%w` verb, whose
wrapped error is nil when the operand was, and `wrapErrors` is the `*fmt.wrapErrors`
it returns for several. The first field is the text returned by `Error()`. -/
inductive GoError where
  | plain (msg : String)
  | wrapError (msg : String) (err : Option GoError)
  | wrapErrors (msg : String) (errs : List GoError)

/-- The method `Error()`: the message of an error. -/
def GoError.Error : GoError → String
  | .plain msg => msg
  | .wrapError msg _ => msg
  | .wrapErrors msg _ => msg

/-- The errors an error wraps directly: the result of its `Unwrap()` method
(`Unwrap() error` for `wrapError`, `Unwrap() []error` for `wrapErrors`). -/
def GoError.unwrap : GoError → List GoError
  | .plain _ => []
  | .wrapError _ err => err.toList
  | .wrapErrors _ errs => errs

/-- The relation `Reaches e t`: `t` is in the tree of `e`, the error itself or an
error found by unwrapping repeatedly. This is the set `errors.Is` and `errors.As`
walk through. -/
inductive Reaches : GoError → GoError → Prop where
  | self (e : GoError) : Reaches e e
  | step (e c t : GoError) : c ∈ e.unwrap → Reaches c t → Reaches e t

/-- The text `fmt.Errorf` prints for one `%w` operand: the message of an error, and
the bad-verb text for nil. -/
def formatW : Option GoError → String
  | none => "%!w(<nil>)"
  | some e => e.Error

/-- The last step of `fmt.Errorf`, on the formatted text and the operands of the `%w`
verbs in their order: no verb gives a plain error, one verb a `wrapError` around its
operand, more verbs a `wrapErrors` around those operands that are errors. -/
def errorfResult (s : String) : List (Option GoError) → GoError
  | [] => .plain s
  | [a] => .wrapError s a
  | as => .wrapErrors s as.reduceOption

/-- The call `fmt.Errorf(pre + "%w", a)`. -/
def Errorf1 (pre : String) (a : Option GoError) : GoError :=
  errorfResult (pre ++ formatW a) [a]

/-- The call `fmt.Errorf(pre + "%w" + sep + "%w", a, b)`. -/
def Errorf2 (pre sep : String) (a b : Option GoError) : GoError :=
  errorfResult (pre ++ formatW a ++ sep ++ formatW b) [a, b]

/-- The predicate `Contains s t`: the text `t` occurs in the text `s`. -/
def Contains (s t : String) : Prop :=
  ∃ pre post : String, s = pre ++ t ++ post

/-! ## The transaction boundary (`internal/common/db/sql.go`) -/

/-- The two finalising calls of a transaction handle. -/
inductive TxCall where
  | Rollback
  | Commit
  deriving DecidableEq, Repr

/-- A transaction handle, as `CheckTransaction` sees `*sql.Tx`: what its `Rollback`
and `Commit` return, and the record of the calls made on it so far. -/
structure Tx where
  rollbackErr : Option GoError
  commitErr : Option GoError
  calls : List TxCall

/-- The call `tx.Rollback()`. -/
def Tx.Rollback (tx : Tx) : Option GoError × Tx :=
  (tx.rollbackErr, { tx with calls := tx.calls ++ [TxCall.Rollback] })

/-- The call `tx.Commit()`. -/
def Tx.Commit (tx : Tx) : Option GoError × Tx :=
  (tx.commitErr, { tx with calls := tx.calls ++ [TxCall.Commit] })

/-- The function `CheckTransaction(tx, repoError)`: the handle and the error slot
after the call. -/
def CheckTransaction (tx : Tx) (repoError : Option GoError) : Tx × Option GoError :=
  match repoError with
  | some _ =>
    match tx.Rollback with
    | (some err, tx1) =>
      (tx1, some (Errorf2 "(repo) failed to rollback transaction: " ": " (some err) repoError))
    | (none, tx1) => (tx1, repoError)
  | none =>
    match tx.Commit with
    | (some err, tx1) =>
      (tx1, some (Errorf2 "(repo) failed to commit transaction: " ": " (some err) repoError))
    | (none, tx1) => (tx1, repoError)

/-! ## SHA-256 (`crypto/sha256`) and hexadecimal encoding (`encoding/hex`) -/

/-- Rotation to the right of a 32-bit word. -/
def rotr32 (x n : Nat) : Nat :=
  ((x >>> n) ||| (x <<< (32 - n))) % 2 ^ 32

/-- The round constants of SHA-256. -/
def sha256K : List Nat :=
  [0x428a2f98, 0x71374491, 0xb5c0fbcf, 0xe9b5dba5, 0x3956c25b, 0x59f111f1, 0x923f82a4,
   0xab1c5ed5, 0xd807aa98, 0x12835b01, 0x243185be, 0x550c7dc3, 0x72be5d74, 0x80deb1fe,
   0x9bdc06a7, 0xc19bf174, 0xe49b69c1, 0xefbe4786, 0x0fc19dc6, 0x240ca1cc, 0x2de92c6f,
   0x4a7484aa, 0x5cb0a9dc, 0x76f988da, 0x983e5152, 0xa831c66d, 0xb00327c8, 0xbf597fc7,
   0xc6e00bf3, 0xd5a79147, 0x06ca6351, 0x14292967, 0x27b70a85, 0x2e1b2138, 0x4d2c6dfc,
   0x53380d13, 0x650a7354, 0x766a0abb, 0x81c2c92e, 0x92722c85, 0xa2bfe8a1, 0xa81a664b,
   0xc24b8b70, 0xc76c51a3, 0xd192e819, 0xd6990624, 0xf40e3585, 0x106aa070, 0x19a4c116,
   0x1e376c08, 0x2748774c, 0x34b0bcb5, 0x391c0cb3, 0x4ed8aa4a, 0x5b9cca4f, 0x682e6ff3,
   0x748f82ee, 0x78a5636f, 0x84c87814, 0x8cc70208, 0x90befffa, 0xa4506ceb, 0xbef9a3f7,
   0xc67178f2]

/-- The eight working words of SHA-256. -/
structure Sha256State where
  a : Nat
  b : Nat
  c : Nat
  d : Nat
  e : Nat
  f : Nat
  g : Nat
  h : Nat

/-- The initial hash value of SHA-256. -/
def sha256Init : Sha256State :=
  ⟨0x6a09e667, 0xbb67ae85, 0x3c6ef372, 0xa54ff53a, 0x510e527f, 0x9b05688c, 0x1f83d9ab,
   0x5be0cd19⟩

/-- The padded message: the bit 1, zeros up to 56 modulo 64, and the length in bits
as a 64-bit big-endian number. -/
def sha256Pad (msg : List Nat) : List Nat :=
  msg ++ [0x80] ++ List.replicate ((119 - msg.length % 64) % 64) 0 ++
    (List.range 8).map (fun i => ((8 * msg.length) >>> (8 * (7 - i))) % 256)

/-- The big-endian 32-bit words of a block of bytes. -/
def beWords : List Nat → List Nat
  | b0 :: b1 :: b2 :: b3 :: rest =>
    (((b0 % 256) <<< 24) ||| ((b1 % 256) <<< 16) ||| ((b2 % 256) <<< 8) ||| (b3 % 256)) ::
      beWords rest
  | _ => []

/-- The message schedule, extended by `n` words. -/
def sha256Schedule : Nat → List Nat → List Nat
  | 0, w => w
  | n + 1, w =>
    let i := w.length
    let w15 := w.getD (i - 15) 0
    let w2 := w.getD (i - 2) 0
    let s0 := (rotr32 w15 7) ^^^ (rotr32 w15 18) ^^^ (w15 >>> 3)
    let s1 := (rotr32 w2 17) ^^^ (rotr32 w2 19) ^^^ (w2 >>> 10)
    sha256Schedule n (w ++ [(w.getD (i - 16) 0 + s0 + w.getD (i - 7) 0 + s1) % 2 ^ 32])

/-- One round of the compression function, with round constant `k` and schedule
word `w`. -/
def sha256Round (s : Sha256State) (kw : Nat × Nat) : Sha256State :=
  let S1 := (rotr32 s.e 6) ^^^ (rotr32 s.e 11) ^^^ (rotr32 s.e 25)
  let ch := (s.e &&& s.f) ^^^ ((s.e ^^^ 0xffffffff) &&& s.g)
  let t1 := (s.h + S1 + ch + kw.1 + kw.2) % 2 ^ 32
  let S0 := (rotr32 s.a 2) ^^^ (rotr32 s.a 13) ^^^ (rotr32 s.a 22)
  let maj := (s.a &&& s.b) ^^^ (s.a &&& s.c) ^^^ (s.b &&& s.c)
  let t2 := (S0 + maj) % 2 ^ 32
  ⟨(t1 + t2) % 2 ^ 32, s.a, s.b, s.c, (s.d + t1) % 2 ^ 32, s.e, s.f, s.g⟩

/-- The compression of one 64-byte block into the hash value. -/
def sha256Block (s : Sha256State) (block : List Nat) : Sha256State :=
  let w := sha256Schedule 48 (beWords block)
  let t := (sha256K.zip w).foldl sha256Round s
  ⟨(s.a + t.a) % 2 ^ 32, (s.b + t.b) % 2 ^ 32, (s.c + t.c) % 2 ^ 32, (s.d + t.d) % 2 ^ 32,
   (s.e + t.e) % 2 ^ 32, (s.f + t.f) % 2 ^ 32, (s.g + t.g) % 2 ^ 32, (s.h + t.h) % 2 ^ 32⟩

/-- The hash value after the first `n` 64-byte blocks of a padded message. -/
def sha256Blocks : Nat → Sha256State → List Nat → Sha256State
  | 0, s, _ => s
  | n + 1, s, bytes => sha256Blocks n (sha256Block s (bytes.take 64)) (bytes.drop 64)

/-- The four big-endian bytes of a 32-bit word. -/
def be32 (w : Nat) : List Nat :=
  [(w >>> 24) % 256, (w >>> 16) % 256, (w >>> 8) % 256, w % 256]

/-- The SHA-256 digest of a byte sequence: 32 bytes. -/
def sha256 (msg : List Nat) : List Nat :=
  let p := sha256Pad msg
  let s := sha256Blocks (p.length / 64) sha256Init p
  be32 s.a ++ be32 s.b ++ be32 s.c ++ be32 s.d ++ be32 s.e ++ be32 s.f ++ be32 s.g ++ be32 s.h

/-- The lowercase hexadecimal digit of a value below 16. -/
def hexDigit (n : Nat) : Char :=
  "0123456789abcdef".toList.getD (n % 16) '0'

/-- The function `hex.EncodeToString`: two lowercase digits per byte. -/
def hexEncode (bytes : List Nat) : List Char :=
  bytes.flatMap (fun v => [hexDigit (v >>> 4), hexDigit (v &&& 0x0f)])

/-! ## Seekable streams (`io.ReadSeeker`) and `io.Copy` -/

/-- The sentinel `io.EOF`. -/
def EOF : GoError := .plain "EOF"

/-- The error of a failing read or seek on the input stream. -/
def errInput : GoError := .plain "input/output error"

/-- The sentinel `io.ErrShortWrite`. -/
def ErrShortWrite : GoError := .plain "short write"

/-- The error `io.errInvalidWrite`. -/
def errInvalidWrite : GoError := .plain "invalid write result"

/-- The third argument of `Seek`. -/
inductive Whence where
  | SeekStart
  | SeekCurrent
  | SeekEnd
  deriving DecidableEq, Repr

/-- A seekable input stream over a byte sequence held in memory: its bytes, its read
offset, and a fuse for injected faults. With `fuse = some n` the next `n` calls of
`Seek` and `Read` work and every later one fails with `errInput`; with `fuse = none`
no call fails. A `Read` delivers as many bytes as are asked for and available. -/
structure Stream where
  data : List Nat
  pos : Nat
  fuse : Option Nat

/-- The fuse before a call: `none` when the call fails, else the stream with one
call used up. -/
def Stream.tick (s : Stream) : Option Stream :=
  match s.fuse with
  | none => some s
  | some 0 => none
  | some (n + 1) => some { s with fuse := some n }

/-- The method `Seek(offset, whence)` for a non-negative `offset`: the new absolute
offset, which may lie beyond the end. -/
def Stream.Seek (s : Stream) (offset : Nat) (whence : Whence) : Except GoError Nat × Stream :=
  match s.tick with
  | none => (.error errInput, s)
  | some s1 =>
    let abs :=
      match whence with
      | .SeekStart => offset
      | .SeekCurrent => s1.pos + offset
      | .SeekEnd => s1.data.length + offset
    (.ok abs, { s1 with pos := abs })

/-- The method `Read(p)` for a buffer of `n` bytes: the bytes stored into the buffer
and the error. At the end of the bytes it returns no bytes and `io.EOF`. -/
def Stream.Read (s : Stream) (n : Nat) : (List Nat × Option GoError) × Stream :=
  match s.tick with
  | none => (([], some errInput), s)
  | some s1 =>
    if s1.data.length ≤ s1.pos then (([], some EOF), s1)
    else
      let got := (s1.data.drop s1.pos).take n
      ((got, none), { s1 with pos := s1.pos + got.length })

/-- The test `er != EOF` of `io.Copy`, negated. -/
def isEOF (e : GoError) : Bool :=
  e.Error == "EOF" && e.unwrap.isEmpty

/-- The loop of `io.copyBuffer` with its 32 KiB buffer, for at most `fuel` rounds:
bytes written, error, destination and source afterwards. -/
def copyLoop {ω : Type} (write : ω → List Nat → (Nat × Option GoError) × ω) :
    Nat → ω → Stream → Nat → (Nat × Option GoError) × ω × Stream
  | 0, dst, src, written => ((written, some (.plain "copy: out of fuel")), dst, src)
  | fuel + 1, dst, src, written =>
    match src.Read (32 * 1024) with
    | ((buf, er), src1) =>
      let next : Nat → ω → (Nat × Option GoError) × ω × Stream := fun written1 dst1 =>
        match er with
        | some e => ((written1, if isEOF e then none else some e), dst1, src1)
        | none => copyLoop write fuel dst1 src1 written1
      if 0 < buf.length then
        match write dst buf with
        | ((nw0, ew0), dst1) =>
          let nw := if buf.length < nw0 then 0 else nw0
          let ew := if buf.length < nw0 then some (ew0.getD errInvalidWrite) else ew0
          match ew with
          | some e => ((written + nw, some e), dst1, src1)
          | none =>
            if buf.length ≠ nw then ((written + nw, some ErrShortWrite), dst1, src1)
            else next (written + nw) dst1
      else next written dst

/-- The function `io.Copy(dst, src)`: the loop runs until the source reports an error
or the end; the fuel given covers every round a stream of this length can take. -/
def ioCopy {ω : Type} (write : ω → List Nat → (Nat × Option GoError) × ω) (dst : ω)
    (src : Stream) : (Nat × Option GoError) × ω × Stream :=
  copyLoop write (src.data.length - src.pos + 1) dst src 0

/-- The method `Write` of a running hash: it takes every byte and never fails. The
state of the hash is the sequence of bytes written so far. -/
def hasherWrite (h : List Nat) (p : List Nat) : (Nat × Option GoError) × List Nat :=
  ((p.length, none), h ++ p)

/-- The call `hasher.Sum(nil)` of a SHA-256 hash: the digest of the bytes written. -/
def hasherSum (h : List Nat) : List Nat :=
  sha256 h

/-! ## `FileHash` (`internal/common/file/file.go`) -/

/-- The function `FileHash(file, extension)`: the name or the error, and the stream
afterwards. -/
def FileHash (file : Stream) (extension : String) : Except GoError String × Stream :=
  match file.Seek 0 .SeekCurrent with
  | (.error err, file1) => (.error (Errorf1 "can't do file seek: " (some err)), file1)
  | (.ok beginPosition, file1) =>
    match ioCopy hasherWrite [] file1 with
    | ((_, some err), _, file2) =>
      (.error (Errorf1 "can't write sent avatar to hasher: " (some err)), file2)
    | ((_, none), hasher, file2) =>
      let newFileName := String.mk (hexEncode (hasherSum hasher))
      match file2.Seek beginPosition .SeekStart with
      | (.error err, file3) => (.error (Errorf1 "can't do file seek: " (some err)), file3)
      | (.ok _, file3) => (.ok (newFileName ++ extension), file3)

/-- The name `FileHash` gives to content `b` with extension `ext`: the hexadecimal
SHA-256 digest of `b` followed by `ext`. -/
def contentName (b : List Nat) (ext : String) : String :=
  String.mk (hexEncode (sha256 b)) ++ ext

/-! ## The file system (`os`) and `filepath.Join` -/

/-- The errno `ENOENT`. -/
def ENOENT : GoError := .plain "no such file or directory"

/-- The errno `EACCES`. -/
def EACCES : GoError := .plain "permission denied"

/-- The errno `ENOSPC`. -/
def ENOSPC : GoError := .plain "no space left on device"

/-- An `*fs.PathError`: the operation, the path and the errno it wraps. -/
def pathError (op path : String) (errno : GoError) : GoError :=
  .wrapError (op ++ " " ++ path ++ ": " ++ errno.Error) (some errno)

/-- A file system: the regular files by full path, in the order of their creation,
and three injected faults. With `statDenied` every `os.Stat` fails with `EACCES`, with
`openDenied` every `os.OpenFile` does, and with `space = some k` only `k` more bytes
can be written. -/
structure FS where
  files : List (String × List Nat)
  statDenied : Bool
  openDenied : Bool
  space : Option Nat

/-- The content of the file at `path`, if there is one. -/
def FS.lookup (fs : FS) (path : String) : Option (List Nat) :=
  (fs.files.find? (fun e => e.1 == path)).map Prod.snd

/-- The file system with the content of the file at `path` replaced. -/
def FS.setContent (fs : FS) (path : String) (content : List Nat) : FS :=
  { fs with files := fs.files.map (fun e => if e.1 == path then (e.1, content) else e) }

/-- The error of `os.Stat(path)`: nil for a file that exists. -/
def osStat (fs : FS) (path : String) : Option GoError :=
  if fs.statDenied then some (pathError "stat" path EACCES)
  else
    match fs.lookup path with
    | some _ => none
    | none => some (pathError "stat" path ENOENT)

/-- The function `os.IsNotExist(err)`: the error, or the errno inside a path error,
is `ENOENT`. -/
def osIsNotExist : Option GoError → Bool
  | none => false
  | some (.wrapError _ (some errno)) => errno.Error == ENOENT.Error && errno.unwrap.isEmpty
  | some e => e.Error == ENOENT.Error && e.unwrap.isEmpty

/-- An open file descriptor: the path of its file and its write offset. -/
structure FD where
  path : String
  offset : Nat

/-- The call `os.OpenFile(path, os.O_WRONLY|os.O_CREATE, 0o644)`: a file that is
missing is created empty, a file that exists is opened as it is (nothing is cut off,
and its existence is no error); the descriptor starts at offset 0. -/
def osOpenFile (fs : FS) (path : String) : Except GoError FD × FS :=
  if fs.openDenied then (.error (pathError "open" path EACCES), fs)
  else
    match fs.lookup path with
    | some _ => (.ok ⟨path, 0⟩, fs)
    | none => (.ok ⟨path, 0⟩, { fs with files := fs.files ++ [(path, [])] })

/-- The method `Write` of an open file: the bytes that fit into the free space
replace the content from the write offset on, and the offset moves by their number;
when not all fit the error is `ENOSPC`. -/
def fdWrite (st : FD × FS) (p : List Nat) : (Nat × Option GoError) × (FD × FS) :=
  let fd := st.1
  let fs := st.2
  let n := match fs.space with
    | none => p.length
    | some k => min k p.length
  let old := (fs.lookup fd.path).getD []
  let content := old.take fd.offset ++ p.take n ++ old.drop (fd.offset + n)
  let fs1 := { fs.setContent fd.path content with space := fs.space.map (fun k => k - n) }
  ((n, if n < p.length then some (pathError "write" fd.path ENOSPC) else none),
    ({ fd with offset := fd.offset + n }, fs1))

/-- The components of a path between its slashes. -/
def splitSlash : List Char → List (List Char)
  | [] => [[]]
  | c :: cs =>
    if c = '/' then [] :: splitSlash cs
    else
      match splitSlash cs with
      | [] => [[c]]
      | h :: t => (c :: h) :: t

/-- One component in `filepath.Clean`, on the components kept so far, last first:
empty and `.` components are dropped, `..` removes the component before it, is dropped
at the root, and is kept otherwise. -/
def cleanStep (rooted : Bool) (kept : List (List Char)) (comp : List Char) :
    List (List Char) :=
  if comp = [] ∨ comp = ['.'] then kept
  else if comp = ['.', '.'] then
    match kept with
    | [] => if rooted then [] else [comp]
    | top :: below => if top = ['.', '.'] then comp :: kept else below
  else comp :: kept

/-- The function `filepath.Clean` on a Unix path: the shortest path equivalent to
`path` by purely lexical processing. -/
def filepathClean (path : String) : String :=
  let rooted := path.data.head? == some '/'
  let kept := ((splitSlash path.data).foldl (cleanStep rooted) []).reverse
  let body := List.intercalate ['/'] kept
  if rooted then String.mk ('/' :: body)
  else if body = [] then "."
  else String.mk body

/-- The function `filepath.Join(dir, name)` on Unix: the elements from the first one
that is not empty are joined by slashes and cleaned. -/
def filepathJoin (dir name : String) : String :=
  if dir ≠ "" then filepathClean (dir ++ "/" ++ name)
  else if name ≠ "" then filepathClean name
  else ""

/-! ## `CreateFile` (`internal/common/file/file.go`) -/

/-- The function `CreateFile(file, extension, dirPath)` on a file system: the pair
`(filename, path)` or the error, the stream and the file system afterwards. The
deferred `newFD.Close()` changes nothing in this file system. -/
def CreateFile (file : Stream) (extension dirPath : String) (fs : FS) :
    Except GoError (String × String) × Stream × FS :=
  match file.Seek 0 .SeekCurrent with
  | (.error err, file1) => (.error (Errorf1 "can't do file seek: " (some err)), file1, fs)
  | (.ok beginPosition, file1) =>
    match FileHash file1 extension with
    | (.error err, file2) => (.error (Errorf1 "can't get fil hash: " (some err)), file2, fs)
    | (.ok filename, file2) =>
      let path := filepathJoin dirPath filename
      let finish : Stream → FS → Except GoError (String × String) × Stream × FS :=
        fun file3 fs3 =>
          match file3.Seek beginPosition .SeekStart with
          | (.error err, file4) =>
            (.error (Errorf1 "can't do file seek: " (some err)), file4, fs3)
          | (.ok _, file4) => (.ok (filename, path), file4, fs3)
      let err := osStat fs path
      if osIsNotExist err then
        match osOpenFile fs path with
        | (.error err1, fs1) =>
          (.error (Errorf1 "can't create file to save avatar: " (some err1)), file2, fs1)
        | (.ok newFD, fs1) =>
          match ioCopy fdWrite (newFD, fs1) file2 with
          | ((_, some err2), (_, fs2), file3) =>
            (.error (Errorf1 "can't write sent avatar to file: " (some err2)), file3, fs2)
          | ((_, none), (_, fs2), file3) => finish file3 fs2
      else
        match err with
        | some err1 => (.error (Errorf1 "can't check file stat: " (some err1)), file2, fs)
        | none => finish file2 fs

/-! ## Content sniffing (`net/http.DetectContentType`) -/

/-- The bytes of a text of ASCII characters. -/
def asciiBytes (s : String) : List Nat :=
  s.data.map Char.toNat

/-- The function `isWS` of the sniffer: tab, line feed, form feed, carriage return,
space. -/
def isWS (b : Nat) : Bool :=
  b == 0x09 || b == 0x0A || b == 0x0C || b == 0x0D || b == 0x20

/-- The function `isTT` of the sniffer: a byte that ends a tag name. -/
def isTT (b : Nat) : Bool :=
  b == 0x20 || b == 0x3E

/-- The signatures of the sniffer. -/
inductive SniffSig where
  | htmlSig (h : List Nat)
  | maskedSig (mask pat : List Nat) (skipWS : Bool) (ct : String)
  | exactSig (sig : List Nat) (ct : String)
  | mp4Sig
  | textSig

/-- The loop of `htmlSig.match`: each byte of the signature against the data, the
data byte folded to upper case where the signature has a capital letter. -/
def htmlLoop : List Nat → List Nat → Bool
  | [], _ => true
  | _ :: _, [] => false
  | b :: h, db :: data =>
    let db1 := if 0x41 ≤ b ∧ b ≤ 0x5A then db &&& 0xDF else db
    if b ≠ db1 then false else htmlLoop h data

/-- The loop of `maskedSig.match`: each masked data byte against the pattern. -/
def maskedLoop : List Nat → List Nat → List Nat → Bool
  | [], _, _ => true
  | pb :: pat, m :: mask, d :: data => if d &&& m ≠ pb then false else maskedLoop pat mask data
  | _ :: _, _, _ => false

/-- The loop of `mp4Sig.match` from offset `st` on, for at most `fuel` steps: some
brand of the box other than the version at offset 12 starts with `mp4`. -/
def mp4Loop (data : List Nat) (boxSize : Nat) : Nat → Nat → Bool
  | 0, _ => false
  | fuel + 1, st =>
    if st < boxSize then
      if st = 12 then mp4Loop data boxSize fuel (st + 4)
      else if (data.drop st).take 3 = asciiBytes "mp4" then true
      else mp4Loop data boxSize fuel (st + 4)
    else false

/-- The test of `textSig.match`: a byte that cannot occur in text. -/
def isBinaryByte (b : Nat) : Bool :=
  b ≤ 0x08 || b == 0x0B || (0x0E ≤ b && b ≤ 0x1A) || (0x1C ≤ b && b ≤ 0x1F)

/-- The method `match` of a signature on the data and the index of its first byte
that is not white space: the content type, or the empty text for no match. -/
def SniffSig.matchSig (sig : SniffSig) (data : List Nat) (firstNonWS : Nat) : String :=
  match sig with
  | .htmlSig h =>
    let data1 := data.drop firstNonWS
    if data1.length < h.length + 1 then ""
    else if ¬ htmlLoop h data1 then ""
    else if ¬ isTT (data1.getD h.length 0) then ""
    else "text/html; charset=utf-8"
  | .maskedSig mask pat skipWS ct =>
    let data1 := if skipWS then data.drop firstNonWS else data
    if pat.length ≠ mask.length then ""
    else if data1.length < pat.length then ""
    else if ¬ maskedLoop pat mask data1 then ""
    else ct
  | .exactSig sig ct => if sig.isPrefixOf data then ct else ""
  | .mp4Sig =>
    if data.length < 12 then ""
    else
      let boxSize := beWords (data.take 4) |>.headD 0
      if data.length < boxSize ∨ boxSize % 4 ≠ 0 then ""
      else if (data.drop 4).take 4 ≠ asciiBytes "ftyp" then ""
      else if mp4Loop data boxSize 128 8 then "video/mp4"
      else ""
  | .textSig => if (data.drop firstNonWS).any isBinaryByte then "" else "text/plain; charset=utf-8"

/-- The table `sniffSignatures`, in its order. -/
def sniffSignatures : List SniffSig :=
  [ .htmlSig (asciiBytes "<!DOCTYPE HTML"),
    .htmlSig (asciiBytes "<HTML"),
    .htmlSig (asciiBytes "<HEAD"),
    .htmlSig (asciiBytes "<SCRIPT"),
    .htmlSig (asciiBytes "<IFRAME"),
    .htmlSig (asciiBytes "<H1"),
    .htmlSig (asciiBytes "<DIV"),
    .htmlSig (asciiBytes "<FONT"),
    .htmlSig (asciiBytes "<TABLE"),
    .htmlSig (asciiBytes "<A"),
    .htmlSig (asciiBytes "<STYLE"),
    .htmlSig (asciiBytes "<TITLE"),
    .htmlSig (asciiBytes "<B"),
    .htmlSig (asciiBytes "<BODY"),
    .htmlSig (asciiBytes "<BR"),
    .htmlSig (asciiBytes "<P"),
    .htmlSig (asciiBytes "<!--"),
    .maskedSig [0xFF, 0xFF, 0xFF, 0xFF, 0xFF] (asciiBytes "<?xml") true
      "text/xml; charset=utf-8",
    .exactSig (asciiBytes "%PDF-") "application/pdf",
    .exactSig (asciiBytes "%!PS-Adobe-") "application/postscript",
    .maskedSig [0xFF, 0xFF, 0x00, 0x00] [0xFE, 0xFF, 0x00, 0x00] false
      "text/plain; charset=utf-16be",
    .maskedSig [0xFF, 0xFF, 0x00, 0x00] [0xFF, 0xFE, 0x00, 0x00] false
      "text/plain; charset=utf-16le",
    .maskedSig [0xFF, 0xFF, 0xFF, 0x00] [0xEF, 0xBB, 0xBF, 0x00] false
      "text/plain; charset=utf-8",
    .exactSig [0x00, 0x00, 0x01, 0x00] "image/x-icon",
    .exactSig [0x00, 0x00, 0x02, 0x00] "image/x-icon",
    .exactSig (asciiBytes "BM") "image/bmp",
    .exactSig (asciiBytes "GIF87a") "image/gif",
    .exactSig (asciiBytes "GIF89a") "image/gif",
    .exactSig [0x89, 0x50, 0x4E, 0x47, 0x0D, 0x0A, 0x1A, 0x0A] "image/png",
    .exactSig [0xFF, 0xD8, 0xFF] "image/jpeg",
    .maskedSig [0xFF, 0xFF, 0xFF, 0xFF, 0x00, 0x00, 0x00, 0x00, 0xFF, 0xFF, 0xFF, 0xFF, 0xFF, 0xFF]
      (asciiBytes "RIFF" ++ [0, 0, 0, 0] ++ asciiBytes "WEBPVP") false "image/webp",
    .maskedSig [0xFF, 0xFF, 0xFF, 0xFF] (asciiBytes ".snd") false "audio/basic",
    .maskedSig [0xFF, 0xFF, 0xFF, 0xFF, 0x00, 0x00, 0x00, 0x00, 0xFF, 0xFF, 0xFF, 0xFF]
      (asciiBytes "FORM" ++ [0, 0, 0, 0] ++ asciiBytes "AIFF") false "audio/aiff",
    .maskedSig [0xFF, 0xFF, 0xFF] (asciiBytes "ID3") false "audio/mpeg",
    .maskedSig [0xFF, 0xFF, 0xFF, 0xFF, 0xFF] (asciiBytes "OggS" ++ [0]) false
      "application/ogg",
    .maskedSig [0xFF, 0xFF, 0xFF, 0xFF, 0xFF, 0xFF, 0xFF, 0xFF]
      (asciiBytes "MThd" ++ [0x00, 0x00, 0x00, 0x06]) false "audio/midi",
    .maskedSig [0xFF, 0xFF, 0xFF, 0xFF, 0x00, 0x00, 0x00, 0x00, 0xFF, 0xFF, 0xFF, 0xFF]
      (asciiBytes "RIFF" ++ [0, 0, 0, 0] ++ asciiBytes "AVI ") false "video/avi",
    .maskedSig [0xFF, 0xFF, 0xFF, 0xFF, 0x00, 0x00, 0x00, 0x00, 0xFF, 0xFF, 0xFF, 0xFF]
      (asciiBytes "RIFF" ++ [0, 0, 0, 0] ++ asciiBytes "WAVE") false "audio/wave",
    .mp4Sig,
    .exactSig [0x1A, 0x45, 0xDF, 0xA3] "video/webm",
    .maskedSig (List.replicate 34 0x00 ++ [0xFF, 0xFF]) (List.replicate 34 0x00 ++ asciiBytes "LP")
      false "application/vnd.ms-fontobject",
    .exactSig [0x00, 0x01, 0x00, 0x00] "font/ttf",
    .exactSig (asciiBytes "OTTO") "font/otf",
    .exactSig (asciiBytes "ttcf") "font/collection",
    .exactSig (asciiBytes "wOFF") "font/woff",
    .exactSig (asciiBytes "wOF2") "font/woff2",
    .exactSig [0x1F, 0x8B, 0x08] "application/x-gzip",
    .exactSig (asciiBytes "PK" ++ [0x03, 0x04]) "application/zip",
    .exactSig (asciiBytes "Rar!" ++ [0x1A, 0x07, 0x00]) "application/x-rar-compressed",
    .exactSig (asciiBytes "Rar!" ++ [0x1A, 0x07, 0x01, 0x00]) "application/x-rar-compressed",
    .exactSig [0x00, 0x61, 0x73, 0x6D] "application/wasm",
    .textSig ]

/-- The content type of the first signature of a list that matches, or the fallback
`application/octet-stream`. -/
def firstMatch (data : List Nat) (firstNonWS : Nat) : List SniffSig → String
  | [] => "application/octet-stream"
  | sig :: sigs =>
    if sig.matchSig data firstNonWS ≠ "" then sig.matchSig data firstNonWS
    else firstMatch data firstNonWS sigs

/-- The function `http.DetectContentType(data)`: at most the first 512 bytes are
considered. -/
def DetectContentType (data : List Nat) : String :=
  let data1 := data.take 512
  let firstNonWS := (data1.takeWhile isWS).length
  firstMatch data1 firstNonWS sniffSignatures

/-! ## `CheckMimeType` (`internal/common/file/file_validation.go`) -/

/-- The signature of a PNG file: its first eight bytes. -/
def pngMagic : List Nat :=
  [0x89, 0x50, 0x4E, 0x47, 0x0D, 0x0A, 0x1A, 0x0A]

/-- The array `fileHeader` after `file.Read(fileHeader[:])` delivered `got`: 512
bytes, those read followed by the zeros the array was created with. -/
def fileHeader (got : List Nat) : List Nat :=
  got.take 512 ++ List.replicate (512 - got.length) 0

/-- The loop over `correctTypes`: the type is among the allowed ones. -/
def typeAllowed (fileType : String) : List String → Bool
  | [] => false
  | correctType :: rest => if correctType == fileType then true else typeAllowed fileType rest

/-- The function `CheckMimeType(file, correctTypes...)`: the text and the error it
returns, and the stream afterwards. -/
def CheckMimeType (file : Stream) (correctTypes : List String) :
    (String × Option GoError) × Stream :=
  match file.Seek 0 .SeekCurrent with
  | (.error err, file1) => (("", some err), file1)
  | (.ok curPosition, file1) =>
    match file1.Read 512 with
    | ((_, some err), file2) => (("", some err), file2)
    | ((got, none), file2) =>
      match file2.Seek curPosition .SeekStart with
      | (.error err, file3) => (("", some err), file3)
      | (.ok _, file3) =>
        let fileType := DetectContentType (fileHeader got)
        if typeAllowed fileType correctTypes then ((fileType, none), file3)
        else ((fileType, some (.plain "incorrect type")), file3)

/-! ## Directory states reached by calls of `CreateFile` -/

/-- The file name inside a path: its last component. -/
def baseName (path : String) : List Char :=
  (splitSlash path.data).getLastD []

/-- The test that a stored file is named by its own contents: its file name is the
lowercase hexadecimal SHA-256 digest of its bytes followed by some extension. -/
def namedByContent (e : String × List Nat) : Bool :=
  (hexEncode (sha256 e.2)).isPrefixOf (baseName e.1)

/-- The listings of a directory reached from the empty directory by calls of
`CreateFile` one after another, each with its own stream and extension and under its
own faults of the stream and of the file system, whether the call succeeds or fails. -/
inductive Reachable (dirPath : String) : List (String × List Nat) → Prop where
  | empty : Reachable dirPath []
  | call (files : List (String × List Nat)) (file : Stream) (extension : String)
      (statDenied openDenied : Bool) (space : Option Nat) :
      Reachable dirPath files →
      Reachable dirPath
        (CreateFile file extension dirPath ⟨files, statDenied, openDenied, space⟩).2.2.files

set_option maxRecDepth 100000

/-! ## Lemmas on errors -/

theorem reaches_wrapErrors_one (msg : String) (c t : GoError) :
    Reaches (.wrapErrors msg [c]) t ↔ t = .wrapErrors msg [c] ∨ Reaches c t := by
  constructor
  · intro h
    cases h with
    | self => exact Or.inl rfl
    | step _ c1 _ hmem hr =>
      simp only [GoError.unwrap, List.mem_singleton] at hmem
      subst hmem
      exact Or.inr hr
  · rintro (h | h)
    · subst h
      exact Reaches.self _
    · exact Reaches.step _ c _ (by simp [GoError.unwrap]) h

theorem reaches_child (e c : GoError) (h : c ∈ e.unwrap) : Reaches e c :=
  Reaches.step e c c h (Reaches.self c)

theorem contains_mid (pre t post : String) : Contains (pre ++ t ++ post) t :=
  ⟨pre, post, rfl⟩

theorem contains_end (pre a sep t : String) : Contains (pre ++ a ++ sep ++ t) t :=
  ⟨pre ++ a ++ sep, "", by simp⟩

/-! ## The transaction boundary -/

/-- C6: for every transaction handle and every error slot, `CheckTransaction` makes
exactly one call on the handle: the record of calls grows by the single entry
`Rollback` when the slot holds an error on entry and by the single entry `Commit` when
it holds nil, whatever the call returns; the other call never follows. -/
theorem checkTransaction_one_call (tx : Tx) (repoError : Option GoError) :
    (CheckTransaction tx repoError).1.calls =
      tx.calls ++ [if repoError.isSome then TxCall.Rollback else TxCall.Commit] := by
  obtain ⟨r, c, calls⟩ := tx
  cases repoError <;> cases r <;> cases c <;> rfl

/-- C7: with an original error `e` in the slot, `CheckTransaction` keeps `e`. When
`Rollback` returns nil the slot still holds `e`. When `Rollback` fails with `r` the
slot holds one compound error that wraps exactly `r` and `e`, so that both are reached
by unwrapping it, and whose message contains the message of `r` and the message
of `e`. -/
theorem checkTransaction_keeps_original (c : Option GoError) (calls : List TxCall)
    (e : GoError) :
    (CheckTransaction ⟨none, c, calls⟩ (some e)).2 = some e ∧
    ∀ r : GoError, ∃ w : GoError,
      (CheckTransaction ⟨some r, c, calls⟩ (some e)).2 = some w ∧
      w.unwrap = [r, e] ∧ Reaches w r ∧ Reaches w e ∧
      Contains w.Error r.Error ∧ Contains w.Error e.Error := by
  refine ⟨rfl, fun r => ⟨_, rfl, ?_⟩⟩
  have hu : (Errorf2 "(repo) failed to rollback transaction: " ": " (some r) (some e)).unwrap
      = [r, e] := rfl
  refine ⟨hu, reaches_child _ _ (by simp [hu]), reaches_child _ _ (by simp [hu]), ?_, ?_⟩
  · refine ⟨"(repo) failed to rollback transaction: ", ": " ++ e.Error, ?_⟩
    simp [Errorf2, formatW, errorfResult, GoError.Error, String.append_assoc]
  · exact contains_end "(repo) failed to rollback transaction: " r.Error ": " e.Error

/-- C8: with nil in the slot on entry, the slot is non-nil after `CheckTransaction`
exactly when `Commit` returned an error; and then the slot holds an error that wraps
the commit error `c` and nothing else: its `Unwrap` gives `c`, and every error reached
by unwrapping it is the slot's error itself or is reached from `c`. -/
theorem checkTransaction_commit_error (r : Option GoError) (calls : List TxCall) :
    (∀ c : Option GoError,
      ((CheckTransaction ⟨r, c, calls⟩ none).2.isSome ↔ c.isSome)) ∧
    ∀ c : GoError, ∃ w : GoError,
      (CheckTransaction ⟨r, some c, calls⟩ none).2 = some w ∧
      w.unwrap = [c] ∧ (∀ t, Reaches w t ↔ t = w ∨ Reaches c t) ∧
      w.Error = "(repo) failed to commit transaction: " ++ c.Error ++ ": " ++ "%!w(<nil>)" := by
  refine ⟨fun c => by cases c <;> simp [CheckTransaction, Tx.Commit],
    fun c => ⟨_, rfl, rfl, ?_, ?_⟩⟩
  · intro t
    exact reaches_wrapErrors_one _ c t
  · rfl

/-! ## Lemmas on streams and `io.Copy` -/

theorem seek_none (data : List Nat) (pos offset : Nat) (whence : Whence) :
    Stream.Seek ⟨data, pos, none⟩ offset whence =
      (.ok (match whence with
        | .SeekStart => offset
        | .SeekCurrent => pos + offset
        | .SeekEnd => data.length + offset),
       ⟨data, match whence with
        | .SeekStart => offset
        | .SeekCurrent => pos + offset
        | .SeekEnd => data.length + offset, none⟩) := rfl

theorem tick_data (s s1 : Stream) (h : s.tick = some s1) :
    s1.data = s.data ∧ s1.pos = s.pos := by
  obtain ⟨data, pos, fuse⟩ := s
  cases fuse with
  | none => simp [Stream.tick] at h; subst h; exact ⟨rfl, rfl⟩
  | some n =>
    cases n with
    | zero => simp [Stream.tick] at h
    | succ n => simp [Stream.tick] at h; subst h; exact ⟨rfl, rfl⟩

theorem seek_data (s : Stream) (offset : Nat) (whence : Whence) :
    (s.Seek offset whence).2.data = s.data := by
  unfold Stream.Seek
  cases h : s.tick with
  | none => rfl
  | some s1 => exact (tick_data s s1 h).1

theorem seek_current_ok (s s1 : Stream) (p : Nat) (h : s.Seek 0 .SeekCurrent = (.ok p, s1)) :
    p = s.pos ∧ s1.pos = s.pos ∧ s1.data = s.data := by
  unfold Stream.Seek at h
  cases ht : s.tick with
  | none => simp [ht] at h
  | some s2 =>
    simp only [ht, Prod.mk.injEq, Except.ok.injEq] at h
    obtain ⟨hp, hs⟩ := h
    obtain ⟨hd, hpos⟩ := tick_data s s2 ht
    subst hs
    simp only [Nat.add_zero] at hp ⊢
    exact ⟨by omega, hpos, hd⟩

theorem seek_start_ok (s s1 : Stream) (off p : Nat) (h : s.Seek off .SeekStart = (.ok p, s1)) :
    s1.pos = off ∧ s1.data = s.data := by
  unfold Stream.Seek at h
  cases ht : s.tick with
  | none => simp [ht] at h
  | some s2 =>
    simp only [ht, Prod.mk.injEq, Except.ok.injEq] at h
    obtain ⟨_, hs⟩ := h
    subst hs
    exact ⟨rfl, (tick_data s s2 ht).1⟩

theorem read_data (s : Stream) (n : Nat) : (s.Read n).2.data = s.data := by
  unfold Stream.Read
  cases h : s.tick with
  | none => rfl
  | some s1 =>
    have hd := (tick_data s s1 h).1
    simp only
    split <;> simp [hd]

theorem copyLoop_data {ω : Type} (write : ω → List Nat → (Nat × Option GoError) × ω)
    (fuel : Nat) : ∀ (dst : ω) (src : Stream) (written : Nat),
    (copyLoop write fuel dst src written).2.2.data = src.data := by
  induction fuel with
  | zero => intro dst src written; rfl
  | succ fuel ih =>
    intro dst src written
    have hr := read_data src (32 * 1024)
    unfold copyLoop
    generalize src.Read (32 * 1024) = r at hr
    obtain ⟨⟨buf, er⟩, src1⟩ := r
    simp only at hr ⊢
    cases er <;> repeat' split
    all_goals simp [hr, ih]

/-- The loop of `io.Copy` on a stream without faults into a writer that takes every
chunk in full: when `I d acc` relates the writer to the bytes written so far and
is kept by every write, the loop writes all the bytes left in the stream. -/
theorem copyLoop_inv {ω : Type} (write : ω → List Nat → (Nat × Option GoError) × ω)
    (I : ω → List Nat → Prop)
    (hI : ∀ d acc p, I d acc → p ≠ [] →
      (write d p).1 = (p.length, none) ∧ I (write d p).2 (acc ++ p))
    (data : List Nat) (fuel : Nat) :
    ∀ (d : ω) (acc : List Nat) (pos written : Nat), I d acc → data.length - pos < fuel →
      (copyLoop write fuel d ⟨data, pos, none⟩ written).1 =
          (written + (data.drop pos).length, none) ∧
        I (copyLoop write fuel d ⟨data, pos, none⟩ written).2.1 (acc ++ data.drop pos) ∧
        (copyLoop write fuel d ⟨data, pos, none⟩ written).2.2 =
          ⟨data, max pos data.length, none⟩ := by
  induction fuel with
  | zero => intro d acc pos written _ h; omega
  | succ fuel ih =>
    intro d acc pos written hd hfuel
    by_cases hpos : data.length ≤ pos
    · have hdrop : data.drop pos = [] := List.drop_eq_nil_of_le hpos
      simp [copyLoop, Stream.Read, Stream.tick, hpos, hdrop, isEOF, EOF, GoError.Error,
        GoError.unwrap, hd, Nat.max_eq_left hpos]
    · have hlt : pos < data.length := Nat.lt_of_not_le hpos
      have hgot : (data.drop pos).take (32 * 1024) ≠ [] := by
        intro hnil
        have := congrArg List.length hnil
        simp at this
        omega
      obtain ⟨hw, hI1⟩ := hI d acc _ hd hgot
      have hlen : ((data.drop pos).take (32 * 1024)).length ≤ data.length - pos := by
        simp
      have hlen0 : 0 < ((data.drop pos).take (32 * 1024)).length :=
        List.length_pos.mpr hgot
      have hrec := ih (write d ((data.drop pos).take (32 * 1024))).2
        (acc ++ (data.drop pos).take (32 * 1024))
        (pos + ((data.drop pos).take (32 * 1024)).length)
        (written + ((data.drop pos).take (32 * 1024)).length) hI1 (by omega)
      have hsplit : (data.drop pos).take (32 * 1024) ++
          data.drop (pos + ((data.drop pos).take (32 * 1024)).length) = data.drop pos := by
        have h1 : data.drop (pos + ((data.drop pos).take (32 * 1024)).length) =
            (data.drop pos).drop (32 * 1024) := by
          rw [List.drop_drop]
          by_cases hc : 32 * 1024 ≤ data.length - pos
          · have : ((data.drop pos).take (32 * 1024)).length = 32 * 1024 := by
              simp; omega
            rw [this]
          · have h2 : ((data.drop pos).take (32 * 1024)).length = data.length - pos := by
              simp; omega
            rw [h2, List.drop_eq_nil_of_le (by omega), List.drop_eq_nil_of_le (by omega)]
        rw [h1, List.take_append_drop]
      have hcount : written + ((data.drop pos).take (32 * 1024)).length +
          (data.drop (pos + ((data.drop pos).take (32 * 1024)).length)).length =
          written + (data.drop pos).length := by
        have := congrArg List.length hsplit
        simp only [List.length_append] at this
        omega
      have hmax : max (pos + ((data.drop pos).take (32 * 1024)).length) data.length =
          max pos data.length := by
        rw [Nat.max_eq_right (by omega), Nat.max_eq_right (by omega)]
      rw [List.append_assoc, hsplit, hcount, hmax] at hrec
      have hstep : copyLoop write (fuel + 1) d ⟨data, pos, none⟩ written =
          copyLoop write fuel (write d ((data.drop pos).take (32 * 1024))).2
            ⟨data, pos + ((data.drop pos).take (32 * 1024)).length, none⟩
            (written + ((data.drop pos).take (32 * 1024)).length) := by
        generalize hg : (data.drop pos).take (32 * 1024) = got at *
        rcases hwd : write d got with ⟨⟨nw, ew⟩, d1⟩
        rw [hwd] at hw
        simp only [Prod.mk.injEq] at hw
        obtain ⟨hnw, hew⟩ := hw
        subst hnw hew
        rw [copyLoop]
        simp [Stream.Read, Stream.tick, hpos, hg, hlen0, hwd]
      rw [hstep]
      exact hrec

/-! ## `FileHash` -/

theorem ioCopy_hasher (data : List Nat) (pos : Nat) :
    ioCopy hasherWrite [] ⟨data, pos, none⟩ =
      (((data.drop pos).length, none), data.drop pos, ⟨data, max pos data.length, none⟩) := by
  have h := copyLoop_inv hasherWrite (fun d acc => d = acc)
    (fun d acc p hd _ => ⟨rfl, by simp [hasherWrite, hd]⟩) data (data.length - pos + 1)
    [] [] pos 0 rfl (Nat.lt_succ_self _)
  obtain ⟨h1, h2, h3⟩ := h
  simp only [Nat.zero_add, List.nil_append] at h1 h2
  unfold ioCopy
  exact Prod.ext h1 (Prod.ext h2 h3)

/-- On a stream without faults `FileHash` returns the name of the bytes from the read
offset to the end and leaves the stream as it was. -/
theorem fileHash_ok (data : List Nat) (pos : Nat) (ext : String) :
    FileHash ⟨data, pos, none⟩ ext = (.ok (contentName (data.drop pos) ext), ⟨data, pos, none⟩) := by
  simp [FileHash, seek_none, ioCopy_hasher, contentName, hasherSum]

theorem hexDigit_inj : ∀ a b : Fin 16, hexDigit a.val = hexDigit b.val → a = b := by
  decide

theorem hexDigit_mem (n : Nat) : hexDigit n ∈ "0123456789abcdef".toList := by
  have h : ∀ a : Fin 16, hexDigit a.val ∈ "0123456789abcdef".toList := by decide
  have h2 := h ⟨n % 16, Nat.mod_lt _ (by decide)⟩
  have h3 : hexDigit (n % 16) = hexDigit n := by simp [hexDigit]
  rw [← h3]
  exact h2

theorem hexPair_inj (v w : Nat) (hv : v < 256) (hw : w < 256)
    (h1 : hexDigit (v >>> 4) = hexDigit (w >>> 4))
    (h2 : hexDigit (v &&& 0x0f) = hexDigit (w &&& 0x0f)) : v = w := by
  have e1 : ∀ x : Nat, x >>> 4 = x / 16 := fun x => by
    rw [Nat.shiftRight_eq_div_pow]
  have e2 : ∀ x : Nat, x &&& 0x0f = x % 16 := fun x =>
    Nat.and_pow_two_sub_one_eq_mod x 4
  rw [e1, e1] at h1
  rw [e2, e2] at h2
  have a1 := hexDigit_inj ⟨v / 16, by omega⟩ ⟨w / 16, by omega⟩ h1
  have a2 := hexDigit_inj ⟨v % 16, by omega⟩ ⟨w % 16, by omega⟩ h2
  simp only [Fin.mk.injEq] at a1 a2
  omega

theorem hexEncode_length (bytes : List Nat) : (hexEncode bytes).length = 2 * bytes.length := by
  induction bytes with
  | nil => rfl
  | cons v rest ih => simp [hexEncode] at ih ⊢; omega

theorem hexEncode_inj : ∀ (xs ys : List Nat), (∀ x ∈ xs, x < 256) → (∀ y ∈ ys, y < 256) →
    hexEncode xs = hexEncode ys → xs = ys := by
  intro xs
  induction xs with
  | nil =>
    intro ys _ _ h
    cases ys with
    | nil => rfl
    | cons y ys => simp [hexEncode] at h
  | cons x xs ih =>
    intro ys hx hy h
    cases ys with
    | nil => simp [hexEncode] at h
    | cons y ys =>
      simp only [hexEncode, List.flatMap_cons, List.cons_append, List.nil_append,
        List.cons.injEq] at h
      obtain ⟨h1, h2, h3⟩ := h
      have hxy := hexPair_inj x y (hx x (by simp)) (hy y (by simp)) h1 h2
      have := ih ys (fun a ha => hx a (by simp [ha])) (fun a ha => hy a (by simp [ha])) h3
      rw [hxy, this]

theorem hexEncode_mem (bytes : List Nat) :
    ∀ c ∈ hexEncode bytes, c ∈ "0123456789abcdef".toList := by
  intro c hc
  simp only [hexEncode, List.mem_flatMap, List.mem_cons, List.mem_singleton] at hc
  obtain ⟨v, _, hv⟩ := hc
  rcases hv with hv | hv | hv
  · rw [hv]; exact hexDigit_mem _
  · rw [hv]; exact hexDigit_mem _
  · simp at hv

theorem sha256_length (b : List Nat) : (sha256 b).length = 32 := by
  simp [sha256, be32]

theorem sha256_bytes (b : List Nat) : ∀ x ∈ sha256 b, x < 256 := by
  intro x hx
  simp only [sha256, be32, List.mem_append, List.mem_cons, List.mem_singleton] at hx
  have h256 : ∀ n : Nat, n % 256 < 256 := fun n => Nat.mod_lt _ (by decide)
  rcases hx with ((((((hx | hx) | hx) | hx) | hx) | hx) | hx) | hx <;>
    first
    | (rcases hx with hx | hx | hx | hx | hx <;> first | (rw [hx]; exact h256 _) | simp at hx)

theorem contentName_inj (b1 b2 : List Nat) (e1 e2 : String) :
    contentName b1 e1 = contentName b2 e2 ↔ sha256 b1 = sha256 b2 ∧ e1 = e2 := by
  constructor
  · intro h
    have hd := congrArg String.data h
    simp only [contentName, String.data_append] at hd
    have hl : (hexEncode (sha256 b1)).length = (hexEncode (sha256 b2)).length := by
      rw [hexEncode_length, hexEncode_length, sha256_length, sha256_length]
    obtain ⟨h1, h2⟩ := List.append_inj hd hl
    exact ⟨hexEncode_inj _ _ (sha256_bytes b1) (sha256_bytes b2) h1, String.ext h2⟩
  · rintro ⟨h1, h2⟩
    simp [contentName, h1, h2]

/-- C3: on every stream without faults and for every extension, `FileHash` returns the
lowercase hexadecimal SHA-256 digest of the bytes the stream holds from its read offset
on (all its bytes at offset 0), 64 characters, followed by the extension as it is; and
the names of two streams are equal exactly when the digests of their bytes are equal
and the extensions are equal, so the same bytes always get the same name and contents
with different digests never share one. -/
theorem fileHash_name (data : List Nat) (pos : Nat) (ext : String) :
    (FileHash ⟨data, pos, none⟩ ext).1 =
        .ok (String.mk (hexEncode (sha256 (data.drop pos))) ++ ext) ∧
      (FileHash ⟨data, 0, none⟩ ext).1 = .ok (String.mk (hexEncode (sha256 data)) ++ ext) ∧
      (hexEncode (sha256 (data.drop pos))).length = 64 ∧
      (∀ c ∈ hexEncode (sha256 (data.drop pos)), c ∈ "0123456789abcdef".toList) ∧
      (∀ (data2 : List Nat) (pos2 : Nat) (ext2 : String),
        (FileHash ⟨data, pos, none⟩ ext).1 = (FileHash ⟨data2, pos2, none⟩ ext2).1 ↔
          sha256 (data.drop pos) = sha256 (data2.drop pos2) ∧ ext = ext2) := by
  refine ⟨by rw [fileHash_ok]; rfl, by rw [fileHash_ok]; rfl,
    by rw [hexEncode_length, sha256_length], hexEncode_mem _, ?_⟩
  intro data2 pos2 ext2
  rw [fileHash_ok, fileHash_ok]
  simp only [Except.ok.injEq]
  exact contentName_inj _ _ ext ext2

/-! ## `CreateFile` -/

theorem lookup_eq_none (fs : FS) (path : String) :
    fs.lookup path = none ↔ ∀ e ∈ fs.files, (e.1 == path) = false := by
  simp [FS.lookup, List.find?_eq_none]

theorem find_append_absent (base l : List (String × List Nat)) (path : String)
    (hb : ∀ e ∈ base, (e.1 == path) = false) :
    (base ++ l).find? (fun e => e.1 == path) = l.find? (fun e => e.1 == path) := by
  have h : base.find? (fun e => e.1 == path) = none := by
    rw [List.find?_eq_none]
    intro e he
    simp [hb e he]
  rw [List.find?_append, h]
  rfl

theorem map_absent (base : List (String × List Nat)) (path : String) (content : List Nat)
    (hb : ∀ e ∈ base, (e.1 == path) = false) :
    base.map (fun e => if e.1 == path then (e.1, content) else e) = base := by
  induction base with
  | nil => rfl
  | cons e rest ih =>
    have he := hb e (by simp)
    simp only [List.map_cons, he, Bool.false_eq_true, if_false]
    rw [ih (fun x hx => hb x (by simp [hx]))]

/-- The relation between an open descriptor on the newly created last file of the
listing and the bytes written to it so far. -/
theorem fdWrite_appends (base : List (String × List Nat)) (path : String) (sd od : Bool)
    (hb : ∀ e ∈ base, (e.1 == path) = false) (acc p : List Nat) :
    fdWrite (⟨path, acc.length⟩, ⟨base ++ [(path, acc)], sd, od, none⟩) p =
      ((p.length, none),
        (⟨path, (acc ++ p).length⟩, ⟨base ++ [(path, acc ++ p)], sd, od, none⟩)) := by
  have hl : FS.lookup ⟨base ++ [(path, acc)], sd, od, none⟩ path = some acc := by
    simp [FS.lookup, find_append_absent base _ path hb]
  have hdrop : List.drop (acc.length + p.length) acc = [] :=
    List.drop_eq_nil_of_le (by omega)
  have hmap := map_absent base path (acc ++ p) hb
  simp only [beq_iff_eq] at hmap
  simp [fdWrite, hl, FS.setContent, hdrop, hmap]

theorem ioCopy_fd (base : List (String × List Nat)) (path : String) (sd od : Bool)
    (hb : ∀ e ∈ base, (e.1 == path) = false) (data : List Nat) (pos : Nat) :
    ioCopy fdWrite (⟨path, 0⟩, ⟨base ++ [(path, [])], sd, od, none⟩) ⟨data, pos, none⟩ =
      (((data.drop pos).length, none),
        (⟨path, (data.drop pos).length⟩, ⟨base ++ [(path, data.drop pos)], sd, od, none⟩),
        ⟨data, max pos data.length, none⟩) := by
  have h := copyLoop_inv fdWrite
    (fun d acc => d = (⟨path, acc.length⟩, ⟨base ++ [(path, acc)], sd, od, none⟩))
    (fun d acc p hd _ => by
      subst hd
      rw [fdWrite_appends base path sd od hb acc p]
      exact ⟨rfl, rfl⟩)
    data (data.length - pos + 1)
    (⟨path, 0⟩, ⟨base ++ [(path, [])], sd, od, none⟩) [] pos 0 rfl (Nat.lt_succ_self _)
  obtain ⟨h1, h2, h3⟩ := h
  simp only [Nat.zero_add, List.nil_append] at h1 h2
  unfold ioCopy
  exact Prod.ext h1 (Prod.ext h2 h3)

theorem osIsNotExist_stat (path : String) :
    osIsNotExist (some (pathError "stat" path ENOENT)) = true := by
  simp [osIsNotExist, pathError, ENOENT, GoError.Error, GoError.unwrap]

/-- Without faults and with no file at the path yet, `CreateFile` succeeds, adds one
file holding the bytes from the read offset on, and leaves the stream as it was. -/
theorem createFile_absent (data : List Nat) (pos : Nat) (ext dir : String)
    (files : List (String × List Nat))
    (h : FS.lookup ⟨files, false, false, none⟩
      (filepathJoin dir (contentName (data.drop pos) ext)) = none) :
    CreateFile ⟨data, pos, none⟩ ext dir ⟨files, false, false, none⟩ =
      (.ok (contentName (data.drop pos) ext,
          filepathJoin dir (contentName (data.drop pos) ext)),
        ⟨data, pos, none⟩,
        ⟨files ++ [(filepathJoin dir (contentName (data.drop pos) ext), data.drop pos)],
          false, false, none⟩) := by
  have hb := (lookup_eq_none _ _).mp h
  simp only at hb
  simp [CreateFile, seek_none, fileHash_ok, osStat, h, osIsNotExist_stat, osOpenFile,
    ioCopy_fd files _ false false hb]

/-- Without a fault in `os.Stat` and with a file at the path, `CreateFile` succeeds,
writes nothing, and leaves the stream as it was. -/
theorem createFile_present (data : List Nat) (pos : Nat) (ext dir : String)
    (files : List (String × List Nat)) (od : Bool) (space : Option Nat) (c : List Nat)
    (h : FS.lookup ⟨files, false, od, space⟩
      (filepathJoin dir (contentName (data.drop pos) ext)) = some c) :
    CreateFile ⟨data, pos, none⟩ ext dir ⟨files, false, od, space⟩ =
      (.ok (contentName (data.drop pos) ext,
          filepathJoin dir (contentName (data.drop pos) ext)),
        ⟨data, pos, none⟩, ⟨files, false, od, space⟩) := by
  simp [CreateFile, seek_none, fileHash_ok, osStat, h, osIsNotExist]

theorem lookup_append_new (files : List (String × List Nat)) (path : String) (c : List Nat)
    (sd od : Bool) (space : Option Nat)
    (h : FS.lookup ⟨files, sd, od, space⟩ path = none) :
    FS.lookup ⟨files ++ [(path, c)], sd, od, space⟩ path = some c := by
  have hb := (lookup_eq_none _ _).mp h
  simp only at hb
  simp [FS.lookup, find_append_absent files _ path hb]

theorem lookup_append_other (files : List (String × List Nat)) (path q : String)
    (c : List Nat) (sd od : Bool) (space : Option Nat) (hq : q ≠ path) :
    FS.lookup ⟨files ++ [(path, c)], sd, od, space⟩ q = FS.lookup ⟨files, sd, od, space⟩ q := by
  simp only [FS.lookup, List.find?_append]
  have hpq : (path == q) = false := beq_false_of_ne (Ne.symm hq)
  have : List.find? (fun e => e.1 == q) [(path, c)] = none := by
    simp [List.find?, hpq]
  rw [this]
  cases List.find? (fun e => e.1 == q) files <;> rfl

/-! ## The read offset after the operations -/

theorem ioCopy_data {ω : Type} (write : ω → List Nat → (Nat × Option GoError) × ω) (dst : ω)
    (src : Stream) : (ioCopy write dst src).2.2.data = src.data :=
  copyLoop_data write _ dst src 0

theorem fileHash_frame (s s1 : Stream) (ext name : String)
    (h : FileHash s ext = (.ok name, s1)) : s1.pos = s.pos ∧ s1.data = s.data := by
  unfold FileHash at h
  split at h
  · simp at h
  · rename_i beginPosition file1 hseek
    obtain ⟨hb, _, hd1⟩ := seek_current_ok s file1 beginPosition hseek
    split at h
    · simp at h
    · rename_i w hasher file2 hcopy
      have hd2 : file2.data = file1.data := by
        have := ioCopy_data hasherWrite [] file1
        rw [hcopy] at this
        exact this
      split at h
      · simp at h
      · rename_i p file3 hseek2
        obtain ⟨hp3, hd3⟩ := seek_start_ok file2 file3 beginPosition p hseek2
        simp only [Prod.mk.injEq, Except.ok.injEq] at h
        obtain ⟨_, hs⟩ := h
        subst hs
        exact ⟨by rw [hp3, hb], by rw [hd3, hd2, hd1]⟩

theorem createFile_frame (s s1 : Stream) (ext dir : String) (fs fs1 : FS)
    (r : String × String) (h : CreateFile s ext dir fs = (.ok r, s1, fs1)) :
    s1.pos = s.pos ∧ s1.data = s.data := by
  unfold CreateFile at h
  split at h
  · simp at h
  · rename_i beginPosition file1 hseek
    obtain ⟨hb, hp1, hd1⟩ := seek_current_ok s file1 beginPosition hseek
    split at h
    · simp at h
    · rename_i filename file2 hhash
      obtain ⟨_, hd2⟩ := fileHash_frame file1 file2 ext filename hhash
      have hfinish : ∀ (file3 : Stream) (fs3 : FS), file3.data = file2.data →
          (match file3.Seek beginPosition .SeekStart with
            | (.error err, file4) =>
              ((.error (Errorf1 "can't do file seek: " (some err)), file4, fs3) :
                Except GoError (String × String) × Stream × FS)
            | (.ok _, file4) =>
              (.ok (filename, filepathJoin dir filename), file4, fs3)) = (.ok r, s1, fs1) →
          s1.pos = s.pos ∧ s1.data = s.data := by
        intro file3 fs3 hd3 hm
        split at hm
        · simp at hm
        · rename_i p file4 hseek2
          obtain ⟨hp4, hd4⟩ := seek_start_ok file3 file4 beginPosition p hseek2
          simp only [Prod.mk.injEq, Except.ok.injEq] at hm
          obtain ⟨_, hs, _⟩ := hm
          subst hs
          exact ⟨by rw [hp4, hb], by rw [hd4, hd3, hd2, hd1]⟩
      simp only at h
      split at h
      · split at h
        · simp at h
        · rename_i newFD fs2 hopen
          split at h
          · simp at h
          · rename_i w fd3 fs3 file3 hcopy
            have hd3 : file3.data = file2.data := by
              have := ioCopy_data fdWrite (newFD, fs2) file2
              rw [hcopy] at this
              exact this
            exact hfinish file3 fs3 hd3 h
      · split at h
        · simp at h
        · exact hfinish file2 fs rfl h

theorem checkMimeType_frame (s s1 : Stream) (correctTypes : List String) (t : String)
    (h : CheckMimeType s correctTypes = ((t, none), s1)) :
    s1.pos = s.pos ∧ s1.data = s.data := by
  unfold CheckMimeType at h
  split at h
  · simp at h
  · rename_i curPosition file1 hseek
    obtain ⟨hb, _, hd1⟩ := seek_current_ok s file1 curPosition hseek
    split at h
    · simp at h
    · rename_i got file2 hread
      have hd2 : file2.data = file1.data := by
        have := read_data file1 512
        rw [hread] at this
        exact this
      split at h
      · simp at h
      · rename_i p file3 hseek2
        obtain ⟨hp3, hd3⟩ := seek_start_ok file2 file3 curPosition p hseek2
        have hs : file3 = s1 := by
          simp only at h
          split at h <;> simp only [Prod.mk.injEq] at h <;> exact h.2
        subst hs
        exact ⟨by rw [hp3, hb], by rw [hd3, hd2, hd1]⟩

/-- C4: for every seekable stream at any read offset, with whatever faults, whenever
`FileHash`, `CreateFile` (on any file system, so with the file absent or present) or
`CheckMimeType` returns a nil error, the stream has its read offset from before the
call again and its bytes are unchanged. -/
theorem stream_restored (s : Stream) :
    (∀ (ext name : String) (s1 : Stream), FileHash s ext = (.ok name, s1) →
      s1.pos = s.pos ∧ s1.data = s.data) ∧
    (∀ (ext dir : String) (fs fs1 : FS) (r : String × String) (s1 : Stream),
      CreateFile s ext dir fs = (.ok r, s1, fs1) → s1.pos = s.pos ∧ s1.data = s.data) ∧
    (∀ (correctTypes : List String) (t : String) (s1 : Stream),
      CheckMimeType s correctTypes = ((t, none), s1) → s1.pos = s.pos ∧ s1.data = s.data) :=
  ⟨fun ext name s1 h => fileHash_frame s s1 ext name h,
   fun ext dir fs fs1 r s1 h => createFile_frame s s1 ext dir fs fs1 r h,
   fun correctTypes t s1 h => checkMimeType_frame s s1 correctTypes t h⟩

/-! ## Saving twice -/

theorem filter_absent (files : List (String × List Nat)) (path : String)
    (hb : ∀ e ∈ files, (e.1 == path) = false) :
    files.filter (fun e => e.1 == path) = [] := by
  rw [List.filter_eq_nil_iff]
  intro e he
  simp [hb e he]

theorem createFile_twice_expanded (data : List Nat) (pos : Nat) (ext dir : String)
    (files : List (String × List Nat)) :
    (CreateFile ⟨data, pos, none⟩ ext dir ⟨files, false, false, none⟩).1 =
        .ok (contentName (data.drop pos) ext,
          filepathJoin dir (contentName (data.drop pos) ext)) ∧
      (CreateFile (CreateFile ⟨data, pos, none⟩ ext dir ⟨files, false, false, none⟩).2.1 ext dir
          (CreateFile ⟨data, pos, none⟩ ext dir ⟨files, false, false, none⟩).2.2).1 =
        .ok (contentName (data.drop pos) ext,
          filepathJoin dir (contentName (data.drop pos) ext)) ∧
      (CreateFile ⟨data, pos, none⟩ ext dir ⟨files, false, false, none⟩).2.1 =
        ⟨data, pos, none⟩ ∧
      (CreateFile (CreateFile ⟨data, pos, none⟩ ext dir ⟨files, false, false, none⟩).2.1 ext dir
          (CreateFile ⟨data, pos, none⟩ ext dir ⟨files, false, false, none⟩).2.2).2 =
        (CreateFile ⟨data, pos, none⟩ ext dir ⟨files, false, false, none⟩).2 ∧
      (CreateFile ⟨data, pos, none⟩ ext dir ⟨files, false, false, none⟩).2.2.files =
        (if (FS.lookup ⟨files, false, false, none⟩
            (filepathJoin dir (contentName (data.drop pos) ext))).isSome then files
          else files ++ [(filepathJoin dir (contentName (data.drop pos) ext), data.drop pos)]) ∧
      ((CreateFile ⟨data, pos, none⟩ ext dir ⟨files, false, false, none⟩).2.2.files.filter
          (fun e => e.1 == filepathJoin dir (contentName (data.drop pos) ext))).length =
        (if (FS.lookup ⟨files, false, false, none⟩
            (filepathJoin dir (contentName (data.drop pos) ext))).isSome then
          (files.filter
            (fun e => e.1 == filepathJoin dir (contentName (data.drop pos) ext))).length
          else 1) := by
  cases h : FS.lookup ⟨files, false, false, none⟩
      (filepathJoin dir (contentName (data.drop pos) ext)) with
  | none =>
    have hb := (lookup_eq_none _ _).mp h
    simp only at hb
    have h2 := lookup_append_new files _ (data.drop pos) false false none h
    rw [createFile_absent data pos ext dir files h]
    simp only
    rw [createFile_present data pos ext dir _ false none _ h2]
    simp [filter_absent files _ hb]
  | some c =>
    rw [createFile_present data pos ext dir files false none c h]
    simp only
    rw [createFile_present data pos ext dir files false none c h]
    simp

/-- C1: for every content, extension and directory state, with no I/O call failing,
two calls of `CreateFile` in a row on a stream holding the content return the same pair
of file name and path, the stream is back at its offset after each call, the second
call leaves the file system exactly as the first left it, and the listing has grown by
exactly one file, holding the content, when the path was free and has not changed when
it was taken; so one file stands at the path (none was there before and one is there
now, or those there before are there still). -/
theorem createFile_twice (data : List Nat) (pos : Nat) (ext dir : String)
    (files : List (String × List Nat)) :
    let s : Stream := ⟨data, pos, none⟩
    let fs : FS := ⟨files, false, false, none⟩
    let name := contentName (data.drop pos) ext
    let path := filepathJoin dir name
    let r1 := CreateFile s ext dir fs
    let r2 := CreateFile r1.2.1 ext dir r1.2.2
    r1.1 = .ok (name, path) ∧ r2.1 = .ok (name, path) ∧ r1.2.1 = s ∧ r2.2 = r1.2 ∧
      r1.2.2.files =
        (if (fs.lookup path).isSome then files else files ++ [(path, data.drop pos)]) ∧
      (r1.2.2.files.filter (fun e => e.1 == path)).length =
        (if (fs.lookup path).isSome then (files.filter (fun e => e.1 == path)).length
          else 1) :=
  createFile_twice_expanded data pos ext dir files

/-! ## `filepath.Join` on names without a slash -/

theorem splitSlash_ne_nil (cs : List Char) : splitSlash cs ≠ [] := by
  cases cs with
  | nil => simp [splitSlash]
  | cons c cs =>
    unfold splitSlash
    split
    · simp
    · split <;> simp

theorem splitSlash_append (d b : List Char) :
    splitSlash (d ++ '/' :: b) = splitSlash d ++ splitSlash b := by
  induction d with
  | nil => simp [splitSlash]
  | cons c d ih =>
    by_cases hc : c = '/'
    · simp [splitSlash, hc, ih]
    · have hne := splitSlash_ne_nil d
      cases hs : splitSlash d with
      | nil => exact absurd hs hne
      | cons h t =>
        have ih2 : splitSlash (d.append ('/' :: b)) = (h :: t) ++ splitSlash b := by
          rw [← hs]
          exact ih
        simp only [List.cons_append, splitSlash, hc, if_false, ih2, hs]

theorem splitSlash_single (n : List Char) (h : '/' ∉ n) : splitSlash n = [n] := by
  induction n with
  | nil => rfl
  | cons c n ih =>
    have hc : c ≠ '/' := fun e => h (by simp [e])
    have hn : '/' ∉ n := fun e => h (by simp [e])
    simp [splitSlash, hc, ih hn]

theorem intercalate_snoc (ks : List (List Char)) :
    ∃ q : List Char, (q = [] ∨ ∃ q0 : List Char, q = q0 ++ ['/']) ∧
      ∀ n : List Char, List.intercalate ['/'] (ks ++ [n]) = q ++ n := by
  induction ks with
  | nil => exact ⟨[], Or.inl rfl, fun n => by simp [List.intercalate]⟩
  | cons k ks ih =>
    obtain ⟨q, hq0, hq⟩ := ih
    refine ⟨k ++ '/' :: q, Or.inr ?_, fun n => ?_⟩
    · rcases hq0 with hq0 | ⟨q0, hq0⟩
      · exact ⟨k, by rw [hq0]⟩
      · exact ⟨k ++ '/' :: q0, by rw [hq0]; simp⟩
    · have h := hq n
      cases ks with
      | nil =>
        simp only [List.nil_append, List.intercalate, List.intersperse, List.flatten,
          List.append_nil] at h ⊢
        simp [← h]
      | cons k2 ks =>
        simp only [List.cons_append, List.intercalate, List.intersperse, List.flatten] at h ⊢
        simp [← h]

/-- A component that `filepath.Clean` keeps: not empty and neither `.` nor `..`. -/
theorem cleanStep_keeps (rooted : Bool) (kept : List (List Char)) (n : List Char)
    (h0 : n ≠ []) (h1 : n ≠ ['.']) (h2 : n ≠ ['.', '.']) :
    cleanStep rooted kept n = n :: kept := by
  simp [cleanStep, h0, h1, h2]

theorem filepathClean_tail (d : List Char) (hd : d ≠ []) :
    ∃ q : List Char, (q = [] ∨ ∃ q0 : List Char, q = q0 ++ ['/']) ∧
      ∀ n : List Char, '/' ∉ n → n ≠ [] → n ≠ ['.'] → n ≠ ['.', '.'] →
        (filepathClean (String.mk (d ++ '/' :: n))).data = q ++ n := by
  obtain ⟨q, hq0, hq⟩ := intercalate_snoc
    ((splitSlash d).foldl (cleanStep (d.head? == some '/')) []).reverse
  have hhead : ∀ n : List Char, (d ++ '/' :: n).head? = d.head? := by
    intro n
    cases d with
    | nil => exact absurd rfl hd
    | cons c cs => rfl
  have hbody : ∀ n : List Char, '/' ∉ n → n ≠ [] → n ≠ ['.'] → n ≠ ['.', '.'] →
      List.intercalate ['/'] ((List.foldl (cleanStep (d.head? == some '/')) []
        (splitSlash (d ++ '/' :: n))).reverse) = q ++ n := by
    intro n hs h0 h1 h2
    rw [splitSlash_append, splitSlash_single n hs, List.foldl_append]
    simp only [List.foldl_cons, List.foldl_nil]
    rw [cleanStep_keeps _ _ n h0 h1 h2, List.reverse_cons]
    exact hq n
  cases hr : (d.head? == some '/') with
  | false =>
    refine ⟨q, hq0, fun n hs h0 h1 h2 => ?_⟩
    have hb := hbody n hs h0 h1 h2
    rw [hr] at hb
    unfold filepathClean
    simp only [hhead, hr, hb]
    simp [h0]
  | true =>
    refine ⟨'/' :: q, Or.inr ?_, fun n hs h0 h1 h2 => ?_⟩
    · rcases hq0 with hq0 | ⟨q0, hq0⟩
      · exact ⟨[], by rw [hq0]; rfl⟩
      · exact ⟨'/' :: q0, by rw [hq0]; rfl⟩
    · have hb := hbody n hs h0 h1 h2
      rw [hr] at hb
      unfold filepathClean
      simp only [hhead, hr, hb]
      simp

/-- The path `filepath.Join` gives for a directory and a file name of one component:
a part fixed by the directory, empty or ending in a slash, followed by the name. -/
theorem filepathJoin_tail (dir : String) :
    ∃ q : List Char, (q = [] ∨ ∃ q0 : List Char, q = q0 ++ ['/']) ∧
      ∀ n : List Char, '/' ∉ n → n ≠ [] → n ≠ ['.'] → n ≠ ['.', '.'] →
        (filepathJoin dir (String.mk n)).data = q ++ n := by
  by_cases hd : dir = ""
  · refine ⟨[], Or.inl rfl, fun n hs h0 h1 h2 => ?_⟩
    have hn : String.mk n ≠ "" := fun e => h0 (by simpa using congrArg String.data e)
    have hhead : (n.head? == some '/') = false := by
      cases n with
      | nil => rfl
      | cons c n =>
        have hc : c ≠ '/' := fun e => hs (by simp [e])
        simp [hc]
    simp [filepathJoin, hd, hn, filepathClean, splitSlash_single n hs, hhead,
      cleanStep_keeps _ _ n h0 h1 h2, List.intercalate, h0]
  · have hdd : dir.data ≠ [] := fun e => hd (String.ext e)
    obtain ⟨q, hq0, hq⟩ := filepathClean_tail dir.data hdd
    refine ⟨q, hq0, fun n hs h0 h1 h2 => ?_⟩
    have hpath : dir ++ "/" ++ String.mk n = String.mk (dir.data ++ '/' :: n) := by
      apply String.ext
      simp
    simp only [filepathJoin, hd, ne_eq, not_false_eq_true, if_true, hpath]
    exact hq n hs h0 h1 h2

theorem good_name (n : List Char) (hn : 3 ≤ n.length) :
    n ≠ [] ∧ n ≠ ['.'] ∧ n ≠ ['.', '.'] := by
  refine ⟨?_, ?_, ?_⟩ <;> intro e <;> rw [e] at hn <;> simp at hn

theorem filepathJoin_inj (dir : String) (n1 n2 : List Char)
    (hs1 : '/' ∉ n1) (hl1 : 3 ≤ n1.length) (hs2 : '/' ∉ n2) (hl2 : 3 ≤ n2.length)
    (h : filepathJoin dir (String.mk n1) = filepathJoin dir (String.mk n2)) : n1 = n2 := by
  obtain ⟨q, _, hq⟩ := filepathJoin_tail dir
  obtain ⟨a0, a1, a2⟩ := good_name n1 hl1
  obtain ⟨b0, b1, b2⟩ := good_name n2 hl2
  have e1 := hq n1 hs1 a0 a1 a2
  have e2 := hq n2 hs2 b0 b1 b2
  rw [h, e2] at e1
  exact (List.append_cancel_left e1).symm

theorem contentName_data (b : List Nat) (ext : String) :
    (contentName b ext).data = hexEncode (sha256 b) ++ ext.data := rfl

theorem contentName_no_slash (b : List Nat) (ext : String) (h : '/' ∉ ext.data) :
    '/' ∉ (contentName b ext).data := by
  rw [contentName_data]
  intro hm
  rcases List.mem_append.mp hm with hm | hm
  · have := hexEncode_mem _ _ hm
    revert this
    decide
  · exact h hm

theorem contentName_length (b : List Nat) (ext : String) :
    3 ≤ (contentName b ext).data.length := by
  rw [contentName_data, List.length_append, hexEncode_length, sha256_length]
  omega

/-- With an extension free of slashes, contents with different digests are stored at
different paths of the same directory. -/
theorem storedPath_ne (dir ext : String) (b1 b2 : List Nat) (h : '/' ∉ ext.data)
    (hne : sha256 b1 ≠ sha256 b2) :
    filepathJoin dir (contentName b1 ext) ≠ filepathJoin dir (contentName b2 ext) := by
  intro e
  have := filepathJoin_inj dir (contentName b1 ext).data (contentName b2 ext).data
    (contentName_no_slash b1 ext h) (contentName_length b1 ext)
    (contentName_no_slash b2 ext h) (contentName_length b2 ext) e
  exact hne ((contentName_inj b1 b2 ext ext).mp (String.ext this)).1

/-- With an extension free of slashes, the path of a stored content is a part fixed by
the directory, empty or ending in a slash, followed by the name of the content, which
has no slash: the name is the last component of the path. -/
theorem storedPath_name (dir ext : String) (b : List Nat) (h : '/' ∉ ext.data) :
    ∃ q : List Char, (q = [] ∨ ∃ q0 : List Char, q = q0 ++ ['/']) ∧
      (filepathJoin dir (contentName b ext)).data = q ++ (contentName b ext).data ∧
      '/' ∉ (contentName b ext).data := by
  obtain ⟨q, hq0, hq⟩ := filepathJoin_tail dir
  obtain ⟨a0, a1, a2⟩ := good_name _ (contentName_length b ext)
  exact ⟨q, hq0, hq _ (contentName_no_slash b ext h) a0 a1 a2, contentName_no_slash b ext h⟩

/-! ## Saving two contents -/

theorem createFile_stores_expanded (data : List Nat) (pos : Nat) (ext dir : String)
    (files : List (String × List Nat))
    (h : FS.lookup ⟨files, false, false, none⟩
      (filepathJoin dir (contentName (data.drop pos) ext)) = none) :
    (FileHash ⟨data, pos, none⟩ ext).1 = .ok (contentName (data.drop pos) ext) ∧
    (CreateFile ⟨data, pos, none⟩ ext dir ⟨files, false, false, none⟩).1 =
      .ok (contentName (data.drop pos) ext,
        filepathJoin dir (contentName (data.drop pos) ext)) ∧
    (CreateFile ⟨data, pos, none⟩ ext dir ⟨files, false, false, none⟩).2.2.lookup
      (filepathJoin dir (contentName (data.drop pos) ext)) = some (data.drop pos) ∧
    (CreateFile ⟨data, pos, none⟩ ext dir ⟨files, false, false, none⟩).2.2.files =
      files ++ [(filepathJoin dir (contentName (data.drop pos) ext), data.drop pos)] ∧
    ('/' ∉ ext.data → ∃ q : List Char, (q = [] ∨ ∃ q0 : List Char, q = q0 ++ ['/']) ∧
      (filepathJoin dir (contentName (data.drop pos) ext)).data =
        q ++ (contentName (data.drop pos) ext).data ∧
      '/' ∉ (contentName (data.drop pos) ext).data) ∧
    ∀ b2 : List Nat, '/' ∉ ext.data → sha256 b2 ≠ sha256 (data.drop pos) →
      FS.lookup ⟨files, false, false, none⟩ (filepathJoin dir (contentName b2 ext)) = none →
      (CreateFile ⟨b2, 0, none⟩ ext dir
        (CreateFile ⟨data, pos, none⟩ ext dir ⟨files, false, false, none⟩).2.2).1 =
        .ok (contentName b2 ext, filepathJoin dir (contentName b2 ext)) ∧
      filepathJoin dir (contentName b2 ext) ≠
        filepathJoin dir (contentName (data.drop pos) ext) ∧
      (CreateFile ⟨b2, 0, none⟩ ext dir
        (CreateFile ⟨data, pos, none⟩ ext dir ⟨files, false, false, none⟩).2.2).2.2.lookup
        (filepathJoin dir (contentName (data.drop pos) ext)) = some (data.drop pos) ∧
      (CreateFile ⟨b2, 0, none⟩ ext dir
        (CreateFile ⟨data, pos, none⟩ ext dir ⟨files, false, false, none⟩).2.2).2.2.lookup
        (filepathJoin dir (contentName b2 ext)) = some b2 := by
  rw [createFile_absent data pos ext dir files h, fileHash_ok]
  refine ⟨rfl, rfl, lookup_append_new files _ _ false false none h, rfl,
    fun hext => storedPath_name dir ext _ hext, ?_⟩
  intro b2 hext hne h2
  have hp := storedPath_ne dir ext b2 (data.drop pos) hext hne
  have h2a : FS.lookup
      ⟨files ++ [(filepathJoin dir (contentName (data.drop pos) ext), data.drop pos)],
        false, false, none⟩
      (filepathJoin dir (contentName ((b2 : List Nat).drop 0) ext)) = none := by
    rw [List.drop_zero, lookup_append_other files _ _ _ false false none hp]
    exact h2
  have hc := createFile_absent b2 0 ext dir _ h2a
  simp only [List.drop_zero] at hc
  simp only
  rw [hc]
  refine ⟨rfl, hp, ?_, ?_⟩
  · simp only
    rw [lookup_append_other _ _ _ _ false false none (Ne.symm hp)]
    exact lookup_append_new files _ _ false false none h
  · simp only
    exact lookup_append_new _ _ _ false false none (by
      rw [lookup_append_other files _ _ _ false false none hp]
      exact h2)

/-! ## The content-type check -/

theorem typeAllowed_iff (fileType : String) (correctTypes : List String) :
    typeAllowed fileType correctTypes = true ↔ fileType ∈ correctTypes := by
  induction correctTypes with
  | nil => simp [typeAllowed]
  | cons c rest ih =>
    by_cases hc : c = fileType
    · simp [typeAllowed, hc]
    · have hc2 : fileType ≠ c := fun e => hc e.symm
      simp [typeAllowed, hc, hc2, ih]

/-- On a stream without faults that has bytes left, `CheckMimeType` sniffs the buffer
of 512 bytes, returns its type, and leaves the stream as it was. -/
theorem checkMimeType_eval (data : List Nat) (pos : Nat) (correctTypes : List String)
    (hpos : pos < data.length) :
    CheckMimeType ⟨data, pos, none⟩ correctTypes =
      ((DetectContentType (fileHeader ((data.drop pos).take 512)),
        if typeAllowed (DetectContentType (fileHeader ((data.drop pos).take 512))) correctTypes
        then none else some (.plain "incorrect type")), ⟨data, pos, none⟩) := by
  have hnot : ¬ data.length ≤ pos := Nat.not_le.mpr hpos
  simp only [CheckMimeType, seek_none, Stream.Read, Stream.tick, Nat.add_zero, hnot, if_false]
  split <;> rfl

theorem detect_png (rest : List Nat) :
    DetectContentType (0x89 :: 0x50 :: 0x4E :: 0x47 :: 0x0D :: 0x0A :: 0x1A :: 0x0A :: rest) =
      "image/png" := by
  have h1 : (137 : Nat) &&& 255 = 137 := by decide
  simp [DetectContentType, firstMatch, sniffSignatures, SniffSig.matchSig, htmlLoop, maskedLoop,
    asciiBytes, isWS, List.takeWhile, List.isPrefixOf, h1]

theorem fileHeader_png (tail : List Nat) :
    ∃ rest : List Nat, fileHeader ((pngMagic ++ tail).take 512) =
      0x89 :: 0x50 :: 0x4E :: 0x47 :: 0x0D :: 0x0A :: 0x1A :: 0x0A :: rest := by
  refine ⟨(tail.take 504).take 504 ++
    List.replicate (512 - ((pngMagic ++ tail).take 512).length) 0, ?_⟩
  simp [fileHeader, pngMagic, List.take_take]

/-- C5: for every stream without faults that has at least one byte left and every
list of allowed types, `CheckMimeType` returns the type detected in its 512-byte
buffer whether it accepts or rejects, and it returns an error exactly when that type
equals none of the allowed types, the error being `incorrect type`; so the empty list
always rejects. When the bytes left start with the PNG signature, allowing only
`image/jpeg` gives `image/png` with the error, and allowing `image/png` gives
`image/png` with nil. -/
theorem checkMimeType_allowed (data : List Nat) (pos : Nat) (correctTypes : List String)
    (hpos : pos < data.length) :
    (CheckMimeType ⟨data, pos, none⟩ correctTypes).1.1 =
        DetectContentType (fileHeader ((data.drop pos).take 512)) ∧
      ((CheckMimeType ⟨data, pos, none⟩ correctTypes).1.2 ≠ none ↔
        ∀ a ∈ correctTypes, a ≠ DetectContentType (fileHeader ((data.drop pos).take 512))) ∧
      ((CheckMimeType ⟨data, pos, none⟩ correctTypes).1.2 ≠ none →
        (CheckMimeType ⟨data, pos, none⟩ correctTypes).1.2 = some (.plain "incorrect type")) ∧
      (CheckMimeType ⟨data, pos, none⟩ []).1.2 ≠ none ∧
      (∀ tail : List Nat, data.drop pos = pngMagic ++ tail →
        (CheckMimeType ⟨data, pos, none⟩ ["image/jpeg"]).1 =
            ("image/png", some (.plain "incorrect type")) ∧
          (CheckMimeType ⟨data, pos, none⟩ ["image/png"]).1 = ("image/png", none)) := by
  refine ⟨by rw [checkMimeType_eval data pos _ hpos], ?_, ?_, ?_, ?_⟩
  · rw [checkMimeType_eval data pos _ hpos]
    simp only
    cases h : typeAllowed (DetectContentType (fileHeader ((data.drop pos).take 512)))
        correctTypes with
    | true =>
      have hm := (typeAllowed_iff _ _).mp h
      simp only [if_true, ne_eq, not_true_eq_false, false_iff, not_forall]
      exact ⟨_, hm, fun hne => hne rfl⟩
    | false =>
      have hm : ¬ _ ∈ correctTypes := fun hm => by
        have := (typeAllowed_iff _ _).mpr hm
        rw [h] at this
        exact Bool.noConfusion this
      simp only [Bool.false_eq_true, if_false, ne_eq, reduceCtorEq, not_false_eq_true, true_iff]
      intro a ha e
      exact hm (e ▸ ha)
  · rw [checkMimeType_eval data pos _ hpos]
    simp only
    split <;> simp
  · rw [checkMimeType_eval data pos _ hpos]
    simp [typeAllowed]
  · intro tail htail
    obtain ⟨rest, hrest⟩ := fileHeader_png tail
    rw [checkMimeType_eval data pos _ hpos, checkMimeType_eval data pos _ hpos, htail, hrest,
      detect_png]
    exact ⟨rfl, rfl⟩

/-- C2, amended: for every content, extension and directory state in which the path
`Join(dir, FileHash(b, ext))` is free, with no I/O call failing, `CreateFile` returns
the file name `FileHash` gives and the path joined from the directory and that name,
and afterwards the file at that path holds exactly the bytes that were hashed, as the
one new entry of the listing. When moreover the extension contains no slash, that name
is the last component of the path, so the stored file is named by the identifier of
its contents, and saving a second content with a different digest whose path is free
too succeeds at a different path, after which each of the two paths holds its own
content. -/
theorem createFile_stores (data : List Nat) (pos : Nat) (ext dir : String)
    (files : List (String × List Nat))
    (h : FS.lookup ⟨files, false, false, none⟩
      (filepathJoin dir (contentName (data.drop pos) ext)) = none) :
    let fs : FS := ⟨files, false, false, none⟩
    let name := contentName (data.drop pos) ext
    let path := filepathJoin dir name
    let r := CreateFile ⟨data, pos, none⟩ ext dir fs
    (FileHash ⟨data, pos, none⟩ ext).1 = .ok name ∧
      r.1 = .ok (name, path) ∧
      r.2.2.lookup path = some (data.drop pos) ∧
      r.2.2.files = files ++ [(path, data.drop pos)] ∧
      ('/' ∉ ext.data → ∃ q : List Char, (q = [] ∨ ∃ q0 : List Char, q = q0 ++ ['/']) ∧
        path.data = q ++ name.data ∧ '/' ∉ name.data) ∧
      ∀ b2 : List Nat, '/' ∉ ext.data → sha256 b2 ≠ sha256 (data.drop pos) →
        fs.lookup (filepathJoin dir (contentName b2 ext)) = none →
        (CreateFile ⟨b2, 0, none⟩ ext dir r.2.2).1 =
            .ok (contentName b2 ext, filepathJoin dir (contentName b2 ext)) ∧
          filepathJoin dir (contentName b2 ext) ≠ path ∧
          (CreateFile ⟨b2, 0, none⟩ ext dir r.2.2).2.2.lookup path = some (data.drop pos) ∧
          (CreateFile ⟨b2, 0, none⟩ ext dir r.2.2).2.2.lookup
            (filepathJoin dir (contentName b2 ext)) = some b2 :=
  createFile_stores_expanded data pos ext dir files h

/-- The theorem `createFile_stores` at the content `[1]` with the extension `.png` in
the empty directory `/d`, followed by the content `[2]`. -/
theorem createFile_stores_witness :
    FS.lookup ⟨[], false, false, none⟩ (filepathJoin "/d" (contentName [1] ".png")) = none ∧
      (CreateFile ⟨[1], 0, none⟩ ".png" "/d" ⟨[], false, false, none⟩).2.2.lookup
        (filepathJoin "/d" (contentName [1] ".png")) = some [1] ∧
      (CreateFile ⟨[2], 0, none⟩ ".png" "/d"
        (CreateFile ⟨[1], 0, none⟩ ".png" "/d" ⟨[], false, false, none⟩).2.2).2.2.lookup
        (filepathJoin "/d" (contentName [2] ".png")) = some [2] :=
  ⟨rfl, (createFile_stores [1] 0 ".png" "/d" [] rfl).2.2.1,
    ((createFile_stores [1] 0 ".png" "/d" [] rfl).2.2.2.2.2 [2] (by decide) (by decide) rfl).2.2.2⟩

/-- C2 as stated fails for an extension with slashes: `filepath.Join` cleans the path,
so with the extension `/../x` the contents `[1]` and `[2]`, whose digests differ and
whose file names differ, are both stored at `/d/x`. Both calls succeed on the empty
directory `/d`, and afterwards the directory holds the single file `/d/x` with the first
content; the second content is in no file. -/
theorem createFile_paths_collapse :
    sha256 [1] ≠ sha256 [2] ∧
      contentName [1] "/../x" ≠ contentName [2] "/../x" ∧
      (CreateFile ⟨[1], 0, none⟩ "/../x" "/d" ⟨[], false, false, none⟩).1.toOption =
        some (contentName [1] "/../x", "/d/x") ∧
      (CreateFile ⟨[2], 0, none⟩ "/../x" "/d"
        (CreateFile ⟨[1], 0, none⟩ "/../x" "/d" ⟨[], false, false, none⟩).2.2).1.toOption =
        some (contentName [2] "/../x", "/d/x") ∧
      (CreateFile ⟨[2], 0, none⟩ "/../x" "/d"
        (CreateFile ⟨[1], 0, none⟩ "/../x" "/d" ⟨[], false, false, none⟩).2.2).2.2.files =
        [("/d/x", [1])] := by
  have hne : sha256 [1] ≠ sha256 [2] := by decide
  have p1 : filepathJoin "/d" (contentName [1] "/../x") = "/d/x" := by decide
  have p2 : filepathJoin "/d" (contentName [2] "/../x") = "/d/x" := by decide
  have c1 := createFile_absent [1] 0 "/../x" "/d" [] rfl
  have e1 : List.drop 0 [1] = [1] := rfl
  rw [e1, p1] at c1
  have c2 := createFile_present [2] 0 "/../x" "/d" [("/d/x", [1])] false none [1]
    (by rw [show List.drop 0 [2] = [2] from rfl, p2]; rfl)
  have e2 : List.drop 0 [2] = [2] := rfl
  rw [e2, p2] at c2
  refine ⟨hne, fun e => hne ((contentName_inj _ _ _ _).mp e).1, ?_, ?_, ?_⟩
  · rw [c1]; rfl
  · rw [c1]; simp only [List.nil_append]; rw [c2]; rfl
  · rw [c1]; simp only [List.nil_append]; rw [c2]

/-- The theorem `stream_restored` at a stream of three bytes read from offset 1 whose
fuse allows ten calls: the three operations return nil there, on streams with a
shorter fuse, and the offset is 1 again. -/
theorem stream_restored_witness :
    (FileHash ⟨[137, 80, 78], 1, some 10⟩ ".png" =
        (.ok (contentName [80, 78] ".png"), ⟨[137, 80, 78], 1, some 6⟩) ∧
      (⟨[137, 80, 78], 1, some 6⟩ : Stream).pos = 1) ∧
    (CreateFile ⟨[137, 80, 78], 1, some 10⟩ ".png" "/d" ⟨[], false, false, none⟩ =
        (.ok (contentName [80, 78] ".png", filepathJoin "/d" (contentName [80, 78] ".png")),
          ⟨[137, 80, 78], 1, some 2⟩,
          ⟨[(filepathJoin "/d" (contentName [80, 78] ".png"), [80, 78])],
            false, false, none⟩) ∧
      (⟨[137, 80, 78], 1, some 2⟩ : Stream).pos = 1) ∧
    (CheckMimeType ⟨[137, 80, 78], 1, some 10⟩ ["application/octet-stream"] =
        (("application/octet-stream", none), ⟨[137, 80, 78], 1, some 7⟩) ∧
      (⟨[137, 80, 78], 1, some 7⟩ : Stream).pos = 1) :=
  ⟨⟨rfl, ((stream_restored ⟨[137, 80, 78], 1, some 10⟩).1 ".png"
      (contentName [80, 78] ".png") ⟨[137, 80, 78], 1, some 6⟩ rfl).1⟩,
   ⟨rfl, ((stream_restored ⟨[137, 80, 78], 1, some 10⟩).2.1 ".png" "/d"
      ⟨[], false, false, none⟩
      ⟨[(filepathJoin "/d" (contentName [80, 78] ".png"), [80, 78])], false, false, none⟩
      (contentName [80, 78] ".png", filepathJoin "/d" (contentName [80, 78] ".png"))
      ⟨[137, 80, 78], 1, some 2⟩ rfl).1⟩,
   ⟨rfl, ((stream_restored ⟨[137, 80, 78], 1, some 10⟩).2.2 ["application/octet-stream"]
      "application/octet-stream" ⟨[137, 80, 78], 1, some 7⟩ rfl).1⟩⟩

/-- The theorem `checkMimeType_allowed` at a stream of nine bytes that starts with the PNG
signature. -/
theorem checkMimeType_allowed_witness :
    0 < (pngMagic ++ [0]).length ∧
      (CheckMimeType ⟨pngMagic ++ [0], 0, none⟩ ["image/jpeg"]).1 =
        ("image/png", some (.plain "incorrect type")) ∧
      (CheckMimeType ⟨pngMagic ++ [0], 0, none⟩ ["image/png"]).1 = ("image/png", none) :=
  ⟨by decide, (checkMimeType_allowed (pngMagic ++ [0]) 0 [] (by decide)).2.2.2.2 [0] rfl⟩

/-- C9, the code at two streams with fewer than 512 bytes. On the empty stream
`file.Read` returns `io.EOF`, and `CheckMimeType` returns the empty text with that
error even when every type the sniffer could give is allowed, whereas the sniffer gives
`text/plain; charset=utf-8` on no bytes. On the five bytes of `hello` the sniffer gives
`text/plain; charset=utf-8`, and `CheckMimeType` detects `application/octet-stream`,
the type of the five bytes followed by the 507 zeros of its buffer, and rejects. -/
theorem checkMimeType_short_stream :
    (CheckMimeType ⟨[], 0, none⟩
        ["application/octet-stream", "text/plain; charset=utf-8"]).1 = ("", some EOF) ∧
      DetectContentType [] = "text/plain; charset=utf-8" ∧
      DetectContentType (asciiBytes "hello") = "text/plain; charset=utf-8" ∧
      (CheckMimeType ⟨asciiBytes "hello", 0, none⟩ ["text/plain; charset=utf-8"]).1 =
        ("application/octet-stream", some (.plain "incorrect type")) := by
  have h1 : DetectContentType (fileHeader (asciiBytes "hello")) = "application/octet-stream" := by
    decide
  have h2 : fileHeader ((List.drop 0 (asciiBytes "hello")).take 512) =
      fileHeader (asciiBytes "hello") := by decide
  refine ⟨rfl, by decide, by decide, ?_⟩
  rw [checkMimeType_eval (asciiBytes "hello") 0 _ (by decide), h2, h1]
  rfl

/-! ## Directory states after failing calls -/

theorem splitSlash_getLast (q0 n : List Char) (h : '/' ∉ n) :
    (splitSlash (q0 ++ '/' :: n)).getLastD [] = n := by
  rw [splitSlash_append, splitSlash_single n h]
  simp [List.getLastD_eq_getLast?]

/-- With an extension free of slashes, the last component of the path of a stored
content is the name of that content. -/
theorem baseName_storedPath (dir ext : String) (b : List Nat) (h : '/' ∉ ext.data) :
    baseName (filepathJoin dir (contentName b ext)) = (contentName b ext).data := by
  obtain ⟨q, hq0, hq, hs⟩ := storedPath_name dir ext b h
  unfold baseName
  rw [hq]
  rcases hq0 with hq0 | ⟨q0, hq0⟩
  · rw [hq0, List.nil_append, splitSlash_single _ hs]
    rfl
  · rw [hq0, List.append_assoc]
    exact splitSlash_getLast q0 _ hs

/-- Without faults, with a free path and an extension free of slashes, the file that
`CreateFile` adds is named by its own contents. -/
theorem createFile_names_new_file (data : List Nat) (pos : Nat) (ext dir : String)
    (files : List (String × List Nat)) (hext : '/' ∉ ext.data)
    (h : FS.lookup ⟨files, false, false, none⟩
      (filepathJoin dir (contentName (data.drop pos) ext)) = none) :
    (CreateFile ⟨data, pos, none⟩ ext dir ⟨files, false, false, none⟩).2.2.files =
        files ++ [(filepathJoin dir (contentName (data.drop pos) ext), data.drop pos)] ∧
      namedByContent (filepathJoin dir (contentName (data.drop pos) ext), data.drop pos) =
        true := by
  refine ⟨by rw [createFile_absent data pos ext dir files h], ?_⟩
  simp only [namedByContent]
  rw [baseName_storedPath dir ext _ hext, contentName_data]
  simp [List.isPrefixOf_iff_prefix]

/-- C11, the code at a copy that fails part-way. In the empty directory `/tmp` with
room for one more byte, `CreateFile` on the two bytes `[98, 99]` with the extension
`.png` returns the error of the failed write and leaves a file at the path of the full
content that holds the single byte `[98]`; so does no call remove it. That listing is
reached from the empty directory, and its file is not named by its own contents, while
it would be with the full content. The next call with the same content, without any
fault, finds the path taken, writes nothing and returns that path with a nil error,
and the file there still holds `[98]`. A read that fails at the start of the copy
leaves an empty file at that path in the same way. -/
theorem createFile_leaves_partial_file :
    (CreateFile ⟨[98, 99], 0, none⟩ ".png" "/tmp" ⟨[], false, false, some 1⟩).1 =
        .error (Errorf1 "can't write sent avatar to file: "
          (some (pathError "write" (filepathJoin "/tmp" (contentName [98, 99] ".png")) ENOSPC))) ∧
      (CreateFile ⟨[98, 99], 0, none⟩ ".png" "/tmp" ⟨[], false, false, some 1⟩).2.2.files =
        [(filepathJoin "/tmp" (contentName [98, 99] ".png"), [98])] ∧
      Reachable "/tmp" [(filepathJoin "/tmp" (contentName [98, 99] ".png"), [98])] ∧
      namedByContent (filepathJoin "/tmp" (contentName [98, 99] ".png"), [98]) = false ∧
      namedByContent (filepathJoin "/tmp" (contentName [98, 99] ".png"), [98, 99]) = true ∧
      (CreateFile ⟨[98, 99], 0, none⟩ ".png" "/tmp"
          ⟨[(filepathJoin "/tmp" (contentName [98, 99] ".png"), [98])],
            false, false, none⟩).1 =
        .ok (contentName [98, 99] ".png", filepathJoin "/tmp" (contentName [98, 99] ".png")) ∧
      (CreateFile ⟨[98, 99], 0, none⟩ ".png" "/tmp"
          ⟨[(filepathJoin "/tmp" (contentName [98, 99] ".png"), [98])],
            false, false, none⟩).2.2.files =
        [(filepathJoin "/tmp" (contentName [98, 99] ".png"), [98])] ∧
      (CreateFile ⟨[98, 99], 0, some 5⟩ ".png" "/tmp" ⟨[], false, false, none⟩).1 =
        .error (Errorf1 "can't write sent avatar to file: " (some errInput)) ∧
      (CreateFile ⟨[98, 99], 0, some 5⟩ ".png" "/tmp" ⟨[], false, false, none⟩).2.2.files =
        [(filepathJoin "/tmp" (contentName [98, 99] ".png"), [])] := by
  have hfiles : (CreateFile ⟨[98, 99], 0, none⟩ ".png" "/tmp"
      ⟨[], false, false, some 1⟩).2.2.files =
      [(filepathJoin "/tmp" (contentName [98, 99] ".png"), [98])] := rfl
  have hreach := Reachable.call [] ⟨[98, 99], 0, none⟩ ".png" false false (some 1)
    (@Reachable.empty "/tmp")
  rw [hfiles] at hreach
  have hpresent := createFile_present [98, 99] 0 ".png" "/tmp"
    [(filepathJoin "/tmp" (contentName [98, 99] ".png"), [98])] false none [98]
    (by simp [FS.lookup])
  exact ⟨rfl, hfiles, hreach, by decide, by decide, by rw [hpresent]; rfl,
    by rw [hpresent], rfl, rfl⟩

end TrpoBack
